import Mathlib

/-!
A shallow embedding of the transaction-coordination core of this repository:
the GRV proxy (`GrvProxyServer.actor.cpp`) and the commit proxy
(`CommitProxyServer.actor.cpp`).  Pure fragments of the C++ are translated to
Lean functions; doubles become rationals, machine integers become `ℤ`/`ℕ`,
byte strings become lists of naturals.  Code of the repository that is not
part of the provided sources (the flow `Smoother`, `transformVersionstampMutation`,
`isMetadataMutation`, the `ConflictBatch` verdict enum, system key constants)
is modelled from the specification, and each such definition is marked
`Modelled from the spec:` in its doc comment.
-/

namespace GrvProxy

/-- Server knobs read by the GRV proxy rate logic.  The knob values are
configuration, so they are carried as an explicit record. -/
structure Knobs where
  START_TRANSACTION_RATE_WINDOW : ℚ
  START_TRANSACTION_MAX_EMPTY_QUEUE_BUDGET : ℚ
  START_TRANSACTION_MAX_TRANSACTIONS_TO_START : ℚ
  START_TRANSACTION_MAX_QUEUE_SIZE : ℤ
deriving DecidableEq

/-- Modelled from the spec: the flow library `Smoother` (a smoothed
exponential average with an e-folding time; its source is not among the
provided files).  `decay x` stands for `1 - exp (-x)`; it is kept as an
explicit function parameter so the model stays executable, and it is never
applied at `x = 0` because an update at an unchanged timestamp is the
identity (as `1 - exp 0 = 0`). -/
structure Smoother where
  eFoldingTime : ℚ
  time : ℚ
  total : ℚ
  estimate : ℚ
deriving DecidableEq

/-- Modelled from the spec: advancing a smoother to time `t` moves the
estimate towards the total by the decayed fraction of the elapsed time. -/
def Smoother.update (decay : ℚ → ℚ) (s : Smoother) (t : ℚ) : Smoother :=
  if t = s.time then s
  else { s with time := t,
                estimate := s.estimate + (s.total - s.estimate) * decay ((t - s.time) / s.eFoldingTime) }

/-- Modelled from the spec: `addDelta` advances the smoother and adds to the total. -/
def Smoother.addDelta (decay : ℚ → ℚ) (s : Smoother) (delta t : ℚ) : Smoother :=
  let s1 := s.update decay t
  { s1 with total := s1.total + delta }

/-- Modelled from the spec: `setTotal` is `addDelta` of the difference. -/
def Smoother.setTotal (decay : ℚ → ℚ) (s : Smoother) (total t : ℚ) : Smoother :=
  s.addDelta decay (total - s.total) t

/-- Modelled from the spec: resetting a smoother to a value. -/
def Smoother.resetTo (s : Smoother) (value : ℚ) : Smoother :=
  { s with time := 0, total := value, estimate := value }

/-- Modelled from the spec: the smoothed total, together with the updated smoother. -/
def Smoother.smoothTotal (decay : ℚ → ℚ) (s : Smoother) (t : ℚ) : ℚ × Smoother :=
  let s1 := s.update decay t
  (s1.estimate, s1)

/-- Modelled from the spec: the smoothed rate, together with the updated smoother. -/
def Smoother.smoothRate (decay : ℚ → ℚ) (s : Smoother) (t : ℚ) : ℚ × Smoother :=
  let s1 := s.update decay t
  ((s1.total - s1.estimate) / s1.eFoldingTime, s1)

/-- `GrvTransactionRateInfo` (GrvProxyServer.actor.cpp lines 61-132): the per
priority rate state of the GRV proxy. -/
structure GrvTransactionRateInfo where
  rate : ℚ
  limit : ℚ
  budget : ℚ
  disabled : Bool
  smoothRate : Smoother
  smoothReleased : Smoother
deriving DecidableEq

/-- The constructor `GrvTransactionRateInfo(double rate)`: limit and budget
start at zero, the state starts disabled, both smoothers are fresh with the
rate-window e-folding time. -/
def GrvTransactionRateInfo.mkInit (k : Knobs) (rate : ℚ) : GrvTransactionRateInfo :=
  { rate := rate, limit := 0, budget := 0, disabled := true,
    smoothRate := { eFoldingTime := k.START_TRANSACTION_RATE_WINDOW, time := 0, total := 0, estimate := 0 },
    smoothReleased := { eFoldingTime := k.START_TRANSACTION_RATE_WINDOW, time := 0, total := 0, estimate := 0 } }

/-- `GrvTransactionRateInfo::reset`: `limit := window * (smoothRate.smoothTotal()
- smoothReleased.smoothRate())`; reading the smoothed values advances both
smoothers to the current time `tNow`. -/
def GrvTransactionRateInfo.reset (k : Knobs) (decay : ℚ → ℚ) (s : GrvTransactionRateInfo)
    (tNow : ℚ) : GrvTransactionRateInfo :=
  let st := s.smoothRate.smoothTotal decay tNow
  let sr := s.smoothReleased.smoothRate decay tNow
  let releaseRate := st.1 - sr.1
  { s with limit := k.START_TRANSACTION_RATE_WINDOW * releaseRate,
           smoothRate := st.2, smoothReleased := sr.2 }

/-- `GrvTransactionRateInfo::canStart`: true iff `numAlreadyStarted + count <=
min(limit + budget, START_TRANSACTION_MAX_TRANSACTIONS_TO_START)`. -/
def GrvTransactionRateInfo.canStart (k : Knobs) (s : GrvTransactionRateInfo)
    (numAlreadyStarted count : ℤ) : Bool :=
  decide (((numAlreadyStarted + count : ℤ) : ℚ)
    ≤ min (s.limit + s.budget) k.START_TRANSACTION_MAX_TRANSACTIONS_TO_START)

/-- `GrvTransactionRateInfo::updateBudget`: banks the unused fraction of the
limit into the budget (clamped to be non-negative), clamps the budget above
by `START_TRANSACTION_MAX_EMPTY_QUEUE_BUDGET` when the priority queue is
empty, and records the released count into the smoothed-released stream.
`tNow` is the value of `now()` at the call (the C++ `addDelta` reads the
global clock). -/
def GrvTransactionRateInfo.updateBudget (k : Knobs) (decay : ℚ → ℚ) (s : GrvTransactionRateInfo)
    (numStartedAtPriority : ℤ) (queueEmptyAtPriority : Bool) (elapsed tNow : ℚ) :
    GrvTransactionRateInfo :=
  let b1 := max 0 (s.budget + elapsed * (s.limit - (numStartedAtPriority : ℚ)) / k.START_TRANSACTION_RATE_WINDOW)
  let b2 := if queueEmptyAtPriority then min b1 k.START_TRANSACTION_MAX_EMPTY_QUEUE_BUDGET else b1
  { s with budget := b2,
           smoothReleased := s.smoothReleased.addDelta decay (numStartedAtPriority : ℚ) tNow }

/-- `GrvTransactionRateInfo::disable`: disables the state, zeroes the rate and
resets the smoothed rate. -/
def GrvTransactionRateInfo.disable (s : GrvTransactionRateInfo) : GrvTransactionRateInfo :=
  { s with disabled := true, rate := 0, smoothRate := s.smoothRate.resetTo 0 }

/-- `GrvTransactionRateInfo::setRate`: installs a new rate, resetting the
smoothed rate when previously disabled and smoothing towards it otherwise. -/
def GrvTransactionRateInfo.setRate (decay : ℚ → ℚ) (s : GrvTransactionRateInfo)
    (rate tNow : ℚ) : GrvTransactionRateInfo :=
  if s.disabled then
    { s with rate := rate, smoothRate := s.smoothRate.resetTo rate, disabled := false }
  else
    { s with rate := rate, smoothRate := s.smoothRate.setTotal decay rate tNow }

/-- The operations performed on a rate-info state by the GRV proxy
(`reset`, `canStart`, `updateBudget`, `disable`, `setRate`); `canStart` is a
read-only query and leaves the state unchanged. -/
inductive RateOp
  | opReset (tNow : ℚ)
  | opCanStart (numAlreadyStarted count : ℤ)
  | opUpdateBudget (numStarted : ℤ) (queueEmpty : Bool) (elapsed tNow : ℚ)
  | opDisable
  | opSetRate (rate tNow : ℚ)

/-- The state transition of one rate-info operation. -/
def applyRateOp (k : Knobs) (decay : ℚ → ℚ) (s : GrvTransactionRateInfo) :
    RateOp → GrvTransactionRateInfo
  | .opReset t => s.reset k decay t
  | .opCanStart _ _ => s
  | .opUpdateBudget n q e t => s.updateBudget k decay n q e t
  | .opDisable => s.disable
  | .opSetRate r t => s.setRate decay r t

/-- Modelled from the spec: the client transaction priorities in their numeric
order, batch < default < immediate (the enum itself is declared outside the
provided sources). -/
def TP_BATCH : ℕ := 0

/-- Modelled from the spec: the default priority value. -/
def TP_DEFAULT : ℕ := 1

/-- Modelled from the spec: the immediate (system) priority value. -/
def TP_IMMEDIATE : ℕ := 2

/-- The fields of a `GetReadVersionRequest` that the intake branch reads. -/
structure GetReadVersionRequest where
  priority : ℕ
  transactionCount : ℤ
deriving DecidableEq

/-- The possible immediate outcomes of intake for one request: enqueued for a
later batched reply, an immediate `GetReadVersionReply` (the soft queue
overflow signal carries version 1 with locked set), or the
`batch_transaction_throttled` error. -/
inductive GrvIntakeReply
  | queued
  | versionReply (version : ℤ) (locked : Bool)
  | batchThrottledError
deriving DecidableEq

/-- Whether an intake outcome is delivered through `sendError` (a typed error)
rather than `send` (a normal reply). -/
def GrvIntakeReply.isError : GrvIntakeReply → Bool
  | .batchThrottledError => true
  | _ => false

/-- The intake state read and written by `queueGetReadVersionRequests`:
the in/out counters, the three priority queues, the batch rate and the
current GRV proxy count (tag counters, tracing and the GRV timer are
bookkeeping and are omitted). -/
structure GrvIntakeState where
  txnRequestIn : ℤ
  txnRequestOut : ℤ
  systemQueue : List GetReadVersionRequest
  defaultQueue : List GetReadVersionRequest
  batchQueue : List GetReadVersionRequest
  batchRate : ℚ
  grvProxiesCount : ℕ
deriving DecidableEq

/-- The intake branch of `queueGetReadVersionRequests` (GrvProxyServer.actor.cpp
lines 272-318) for one arriving request: if the in-flight count exceeds
`START_TRANSACTION_MAX_QUEUE_SIZE`, reply `version = 1, locked = true`
without enqueueing; otherwise count the request in and route it by priority,
rejecting batch-priority requests with `batch_transaction_throttled` when the
batch rate is at most `1 / max(proxiesCount, 1)`. -/
def queueGetReadVersionRequest (k : Knobs) (st : GrvIntakeState) (req : GetReadVersionRequest) :
    GrvIntakeState × GrvIntakeReply :=
  if st.txnRequestIn - st.txnRequestOut > k.START_TRANSACTION_MAX_QUEUE_SIZE then
    (st, .versionReply 1 true)
  else
    let st1 := { st with txnRequestIn := st.txnRequestIn + 1 }
    if TP_IMMEDIATE ≤ req.priority then
      ({ st1 with systemQueue := st1.systemQueue ++ [req] }, .queued)
    else if TP_DEFAULT ≤ req.priority then
      ({ st1 with defaultQueue := st1.defaultQueue ++ [req] }, .queued)
    else
      let proxiesCount : ℕ := max st.grvProxiesCount 1
      if st.batchRate ≤ 1 / (proxiesCount : ℚ) then
        (st1, .batchThrottledError)
      else
        ({ st1 with batchQueue := st1.batchQueue ++ [req] }, .queued)

/-- Concrete knob values used for witnesses and counterexamples. -/
def testKnobs : Knobs :=
  { START_TRANSACTION_RATE_WINDOW := 2,
    START_TRANSACTION_MAX_EMPTY_QUEUE_BUDGET := 10,
    START_TRANSACTION_MAX_TRANSACTIONS_TO_START := 10000,
    START_TRANSACTION_MAX_QUEUE_SIZE := 100 }

/-- A concrete rate state with the budget above the empty-queue cap. -/
def overBudgetState : GrvTransactionRateInfo :=
  { rate := 0, limit := 0, budget := 11, disabled := false,
    smoothRate := { eFoldingTime := 2, time := 0, total := 0, estimate := 0 },
    smoothReleased := { eFoldingTime := 2, time := 0, total := 0, estimate := 0 } }

/-- A concrete rate state with the budget inside `[0, cap]`. -/
def midBudgetState : GrvTransactionRateInfo :=
  { rate := 3, limit := 1, budget := 5, disabled := false,
    smoothRate := { eFoldingTime := 2, time := 4, total := 3, estimate := 2 },
    smoothReleased := { eFoldingTime := 2, time := 4, total := 7, estimate := 6 } }

/-- A decay function used in concrete instances (its values are irrelevant to
the statements below, which never evaluate it at a changed timestamp). -/
def zeroDecay : ℚ → ℚ := fun _ => 0

/-- C6 counterexample: `updateBudget(0, true, 0)` is not a no-op on every
state.  On a state whose budget exceeds `START_TRANSACTION_MAX_EMPTY_QUEUE_BUDGET`
(reachable while the queue was non-empty), the empty-queue clamp lowers the
budget, so the state changes. -/
theorem c6_counterexample :
    overBudgetState.updateBudget testKnobs zeroDecay 0 true 0 0 ≠ overBudgetState := by
  intro h
  have hb := congrArg GrvTransactionRateInfo.budget h
  have : ¬ ((11 : ℚ) ≤ 10) := by norm_num
  simp [GrvTransactionRateInfo.updateBudget, overBudgetState, testKnobs] at hb
  exact this hb

/-- C6 (amended): for every state, `updateBudget(0, true, 0)` called with no
time elapsed (`tNow` equal to the smoothed-released stream's timestamp, as is
the case when `elapsed = 0`) leaves everything except the budget unchanged
and replaces the budget by `min (max 0 budget) cap`, where `cap` is
`START_TRANSACTION_MAX_EMPTY_QUEUE_BUDGET`; in particular it is a no-op on
the entire state whenever the budget already lies in `[0, cap]`.  And for
every state and every elapsed duration, `updateBudget(0, true, elapsed)`
leaves `budget ≤ cap`. -/
theorem c6_updateBudget_idempotence (k : Knobs) (decay : ℚ → ℚ) (s : GrvTransactionRateInfo) :
    (s.updateBudget k decay 0 true 0 s.smoothReleased.time
      = { s with budget := min (max 0 s.budget) k.START_TRANSACTION_MAX_EMPTY_QUEUE_BUDGET }) ∧
    (0 ≤ s.budget → s.budget ≤ k.START_TRANSACTION_MAX_EMPTY_QUEUE_BUDGET →
      s.updateBudget k decay 0 true 0 s.smoothReleased.time = s) ∧
    (∀ elapsed tNow : ℚ, (s.updateBudget k decay 0 true elapsed tNow).budget
      ≤ k.START_TRANSACTION_MAX_EMPTY_QUEUE_BUDGET) := by
  have hclamp : s.updateBudget k decay 0 true 0 s.smoothReleased.time
      = { s with budget := min (max 0 s.budget) k.START_TRANSACTION_MAX_EMPTY_QUEUE_BUDGET } := by
    show GrvTransactionRateInfo.mk _ _ _ _ _ _ = _
    simp [GrvTransactionRateInfo.updateBudget, Smoother.addDelta, Smoother.update]
  refine ⟨hclamp, ?_, ?_⟩
  · intro h0 h1
    rw [hclamp, max_eq_right h0, min_eq_left h1]
  · intro elapsed tNow
    simp only [GrvTransactionRateInfo.updateBudget, if_pos rfl]
    exact min_le_right _ _

/-- C6 witness: the amended statement at concrete states — the no-op on a
state inside `[0, cap]`, the clamp on a state above the cap, and the cap
bound after a positive elapsed duration on that same over-cap state. -/
theorem c6_witness :
    midBudgetState.updateBudget testKnobs zeroDecay 0 true 0 midBudgetState.smoothReleased.time
      = midBudgetState ∧
    overBudgetState.updateBudget testKnobs zeroDecay 0 true 0 overBudgetState.smoothReleased.time
      = { overBudgetState with budget := 10 } ∧
    (overBudgetState.updateBudget testKnobs zeroDecay 0 true 3 7).budget
      ≤ testKnobs.START_TRANSACTION_MAX_EMPTY_QUEUE_BUDGET := by
  refine ⟨?_, ?_, ?_⟩
  · exact (c6_updateBudget_idempotence testKnobs zeroDecay midBudgetState).2.1
      (by norm_num [midBudgetState]) (by norm_num [midBudgetState, testKnobs])
  · rw [(c6_updateBudget_idempotence testKnobs zeroDecay overBudgetState).1]
    decide
  · exact (c6_updateBudget_idempotence testKnobs zeroDecay overBudgetState).2.2 3 7

/-- C7: the budget invariants of the per-priority rate state.  The budget
starts at zero; every operation among reset / canStart / updateBudget /
disable / setRate maps a non-negative budget to a non-negative budget
(given the non-negative empty-queue cap knob); and every `updateBudget`
call made with the priority queue empty leaves the budget at most the
empty-queue cap. -/
theorem c7_budget_invariants (k : Knobs) (decay : ℚ → ℚ)
    (hcap : 0 ≤ k.START_TRANSACTION_MAX_EMPTY_QUEUE_BUDGET) :
    (∀ r : ℚ, (GrvTransactionRateInfo.mkInit k r).budget = 0) ∧
    (∀ (s : GrvTransactionRateInfo) (op : RateOp),
      0 ≤ s.budget → 0 ≤ (applyRateOp k decay s op).budget) ∧
    (∀ (s : GrvTransactionRateInfo) (n : ℤ) (e t : ℚ),
      (s.updateBudget k decay n true e t).budget
        ≤ k.START_TRANSACTION_MAX_EMPTY_QUEUE_BUDGET) := by
  refine ⟨fun _ => rfl, ?_, ?_⟩
  · intro s op h
    cases op with
    | opReset t => exact h
    | opCanStart a b => exact h
    | opUpdateBudget n q e t =>
      cases q with
      | false => exact le_max_left 0 _
      | true => exact le_min (le_max_left 0 _) hcap
    | opDisable => exact h
    | opSetRate r t =>
      by_cases hd : s.disabled <;>
        simp [GrvTransactionRateInfo.setRate, applyRateOp, hd] <;> exact h
  · intro s n e t
    simp only [GrvTransactionRateInfo.updateBudget, if_pos rfl]
    exact min_le_right _ _

/-- C7 witness: the invariants at concrete inputs. -/
theorem c7_witness :
    (0 : ℚ) ≤ testKnobs.START_TRANSACTION_MAX_EMPTY_QUEUE_BUDGET ∧
    (GrvTransactionRateInfo.mkInit testKnobs 10).budget = 0 ∧
    0 ≤ (applyRateOp testKnobs zeroDecay midBudgetState (.opUpdateBudget 3 false 1 5)).budget ∧
    (midBudgetState.updateBudget testKnobs zeroDecay 3 true 1 5).budget
      ≤ testKnobs.START_TRANSACTION_MAX_EMPTY_QUEUE_BUDGET := by
  have h := c7_budget_invariants testKnobs zeroDecay (by norm_num [testKnobs])
  exact ⟨by norm_num [testKnobs], h.1 10,
    h.2.1 midBudgetState (.opUpdateBudget 3 false 1 5) (by norm_num [midBudgetState]),
    h.2.2 midBudgetState 3 1 5⟩

/-- A concrete intake state whose in-flight count exceeds the queue cap while
the batch-rate condition for throttling also holds. -/
def overflowIntakeState : GrvIntakeState :=
  { txnRequestIn := 300, txnRequestOut := 150,
    systemQueue := [], defaultQueue := [], batchQueue := [],
    batchRate := 1, grvProxiesCount := 1 }

/-- A concrete intake state under the queue cap with the batch rate at the
throttle threshold. -/
def throttlingIntakeState : GrvIntakeState :=
  { txnRequestIn := 10, txnRequestOut := 5,
    systemQueue := [], defaultQueue := [], batchQueue := [],
    batchRate := 1/4, grvProxiesCount := 2 }

/-- A concrete batch-priority request. -/
def batchRequest : GetReadVersionRequest := { priority := TP_BATCH, transactionCount := 1 }

/-- C8 counterexample: when the in-flight count exceeds the queue cap, a
batch-priority request satisfying the low-batch-rate condition is answered
with the soft overflow reply (version 1, locked) rather than with
`batch_transaction_throttled`: the overflow check runs first. -/
theorem c8_counterexample :
    batchRequest.priority < TP_DEFAULT ∧
    overflowIntakeState.batchRate ≤ 1 / ((max overflowIntakeState.grvProxiesCount 1 : ℕ) : ℚ) ∧
    (queueGetReadVersionRequest testKnobs overflowIntakeState batchRequest).2
      ≠ GrvIntakeReply.batchThrottledError ∧
    (queueGetReadVersionRequest testKnobs overflowIntakeState batchRequest).2
      = GrvIntakeReply.versionReply 1 true := by
  refine ⟨by decide, by norm_num [overflowIntakeState], by decide, by decide⟩

/-- C8 (amended): a batch-priority request arriving while the in-flight count
does not exceed the queue cap and while `batchRate ≤ 1 / max(proxiesCount, 1)`
is immediately answered with `batch_transaction_throttled`, is placed in no
queue, and receives no version reply. -/
theorem c8_batch_throttle (k : Knobs) (st : GrvIntakeState) (req : GetReadVersionRequest)
    (hp : req.priority < TP_DEFAULT)
    (hq : st.txnRequestIn - st.txnRequestOut ≤ k.START_TRANSACTION_MAX_QUEUE_SIZE)
    (hr : st.batchRate ≤ 1 / ((max st.grvProxiesCount 1 : ℕ) : ℚ)) :
    (queueGetReadVersionRequest k st req).2 = GrvIntakeReply.batchThrottledError ∧
    (queueGetReadVersionRequest k st req).1.systemQueue = st.systemQueue ∧
    (queueGetReadVersionRequest k st req).1.defaultQueue = st.defaultQueue ∧
    (queueGetReadVersionRequest k st req).1.batchQueue = st.batchQueue := by
  have hp1 : ¬ TP_IMMEDIATE ≤ req.priority := by
    simp only [TP_DEFAULT] at hp
    simp only [TP_IMMEDIATE]
    omega
  have hp2 : ¬ TP_DEFAULT ≤ req.priority := by
    simp only [TP_DEFAULT] at hp ⊢
    omega
  have hq' : ¬ st.txnRequestIn - st.txnRequestOut > k.START_TRANSACTION_MAX_QUEUE_SIZE :=
    not_lt.mpr hq
  have hr2 : st.batchRate ≤ ((st.grvProxiesCount : ℚ) ⊔ 1)⁻¹ := by
    rw [one_div] at hr
    push_cast at hr
    exact hr
  simp [queueGetReadVersionRequest, hq', hp1, hp2, hr2]

/-- C8 witness: the amended statement at a concrete request and state. -/
theorem c8_witness :
    batchRequest.priority < TP_DEFAULT ∧
    throttlingIntakeState.txnRequestIn - throttlingIntakeState.txnRequestOut
      ≤ testKnobs.START_TRANSACTION_MAX_QUEUE_SIZE ∧
    (queueGetReadVersionRequest testKnobs throttlingIntakeState batchRequest).2
      = GrvIntakeReply.batchThrottledError ∧
    (queueGetReadVersionRequest testKnobs throttlingIntakeState batchRequest).1.batchQueue
      = throttlingIntakeState.batchQueue := by
  have h := c8_batch_throttle testKnobs throttlingIntakeState batchRequest
    (by decide) (by norm_num [throttlingIntakeState, testKnobs])
    (by norm_num [throttlingIntakeState])
  exact ⟨by decide, by norm_num [throttlingIntakeState, testKnobs], h.1, h.2.2.2⟩

/-- C9 counterexample: a request arriving over the queue cap is not rejected
with an error reply; it receives a normal `GetReadVersionReply` with
version 1 and locked set (the code's commented-out FIXME defers the typed
error until clients support it). -/
theorem c9_counterexample :
    overflowIntakeState.txnRequestIn - overflowIntakeState.txnRequestOut
      > testKnobs.START_TRANSACTION_MAX_QUEUE_SIZE ∧
    (queueGetReadVersionRequest testKnobs overflowIntakeState batchRequest).2.isError = false := by
  exact ⟨by norm_num [overflowIntakeState, testKnobs], by decide⟩

/-- C9 (amended): a request arriving while the in-flight count exceeds
`START_TRANSACTION_MAX_QUEUE_SIZE` is answered immediately with the soft
overflow reply `version = 1, locked = true` (a normal reply, not a typed
error) and is not enqueued in any priority queue; the intake state is left
unchanged. -/
theorem c9_queue_overflow (k : Knobs) (st : GrvIntakeState) (req : GetReadVersionRequest)
    (hq : st.txnRequestIn - st.txnRequestOut > k.START_TRANSACTION_MAX_QUEUE_SIZE) :
    queueGetReadVersionRequest k st req = (st, GrvIntakeReply.versionReply 1 true) := by
  simp [queueGetReadVersionRequest, hq]

/-- C9 witness: the amended statement at a concrete overflowing state. -/
theorem c9_witness :
    overflowIntakeState.txnRequestIn - overflowIntakeState.txnRequestOut
      > testKnobs.START_TRANSACTION_MAX_QUEUE_SIZE ∧
    queueGetReadVersionRequest testKnobs overflowIntakeState batchRequest
      = (overflowIntakeState, GrvIntakeReply.versionReply 1 true) :=
  ⟨by norm_num [overflowIntakeState, testKnobs],
   c9_queue_overflow testKnobs overflowIntakeState batchRequest
     (by norm_num [overflowIntakeState, testKnobs])⟩

end GrvProxy

namespace CommitProxy

/-- Keys are byte strings, modelled as lists of naturals. -/
abbrev Key := List ℕ

/-- Versions are 64-bit integers minted by the master, modelled as `ℤ`. -/
abbrev Version := ℤ

/-- A half-open key range `[first, second)`. -/
abbrev KeyRange := Key × Key

/-- Lexicographic byte-string comparison (memcmp order, a proper prefix
sorting before its extensions), as `StringRef::operator<`. -/
def keyLt : Key → Key → Bool
  | _, [] => false
  | [], _ :: _ => true
  | a :: as, b :: bs => if a < b then true else if b < a then false else keyLt as bs

/-- Non-strict key comparison. -/
def keyLe (a b : Key) : Bool := !keyLt b a

/-- Whether two half-open key ranges intersect. -/
def rangesIntersect (a b : KeyRange) : Bool := keyLt a.1 b.2 && keyLt b.1 a.2

/-- `keyAfter`: the least key strictly above `k` (appends a zero byte). -/
def keyAfter (k : Key) : Key := k ++ [0]

/-- `singleKeyRange(k)`: the range containing exactly the key `k`. -/
def singleKeyRange (k : Key) : KeyRange := (k, keyAfter k)

/-- The `keyResolvers` map of `ProxyCommitData`: each entry pairs a key range
with its history of `(version, resolver index)` entries, newest last. -/
abbrev KeyResolverMap := List (KeyRange × List (Version × ℕ))

/-- Ordered insertion into a sorted duplicate-free list, the behaviour of
`std::set<int>::insert`. -/
def insertSorted (r : ℕ) : List ℕ → List ℕ
  | [] => [r]
  | x :: xs => if r < x then r :: x :: xs else if r = x then x :: xs else x :: insertSorted r xs

/-- Accumulate a list of resolver indices into a sorted set. -/
def setOfList (rs : List ℕ) : List ℕ := rs.foldl (fun a r => insertSorted r a) []

/-- The traversal of one history entry in the read-conflict resolver lookup
(`ResolutionRequestBuilder::addTransaction` lines 151-157): walking from the
newest entry backwards, every entry is taken up to and including the first
one whose version is below the read snapshot. -/
def untilFirstOlder (snapshot : Version) : List (Version × ℕ) → List (Version × ℕ)
  | [] => []
  | e :: rest => if e.1 < snapshot then [e] else e :: untilFirstOlder snapshot rest

/-- The set of resolvers a read-conflict range is sent to: for every
key-resolver entry intersecting the range, the latest resolver before the
read snapshot plus all later resolvers. -/
def readConflictResolvers (krm : KeyResolverMap) (r : KeyRange) (snapshot : Version) : List ℕ :=
  setOfList (((krm.filter (fun e => rangesIntersect e.1 r)).map
    (fun e => (untilFirstOlder snapshot e.2.reverse).map (·.2))).flatten)

/-- The set of resolvers a write-conflict range is sent to: the newest
resolver (`version_resolver.back()`) of every intersecting entry. -/
def writeConflictResolvers (krm : KeyResolverMap) (r : KeyRange) : List ℕ :=
  setOfList ((krm.filter (fun e => rangesIntersect e.1 r)).filterMap
    (fun e => e.2.getLast?.map (·.2)))

/-- The mutation kinds distinguished by the commit pipeline. -/
inductive MutationType
  | SetValue
  | ClearRange
  | AtomicOp
  | SetVersionstampedKey
  | SetVersionstampedValue
deriving DecidableEq

/-- A mutation: its kind and its two byte-string parameters. -/
structure Mutation where
  mtype : MutationType
  param1 : Key
  param2 : Key
deriving DecidableEq

/-- Big-endian byte encoding of a natural in `w` bytes. -/
def beBytes (w n : ℕ) : List ℕ := (List.range w).map (fun i => n / 256 ^ (w - 1 - i) % 256)

/-- Little-endian byte decoding. -/
def leNat : List ℕ → ℕ
  | [] => 0
  | b :: bs => b + 256 * leNat bs

/-- Modelled from the spec: the 10-byte versionstamp written at commit time,
`bigEndian64(commitVersion) || bigEndian16(batchIndex)`. -/
def versionstampBytes (version : Version) (batchIndex : ℕ) : List ℕ :=
  beBytes 8 version.toNat ++ beBytes 2 batchIndex

/-- Modelled from the spec: `transformVersionstampMutation` (declared outside
the provided sources).  The trailing 4-byte little-endian field names an
offset `o` inside the remaining template; the 10 bytes at `o` are replaced by
the versionstamp and the offset field is removed. -/
def transformVersionstamp (param : List ℕ) (version : Version) (batchIndex : ℕ) : List ℕ :=
  let templ := param.take (param.length - 4)
  let o := leNat (param.drop (param.length - 4))
  templ.take o ++ versionstampBytes version batchIndex ++ templ.drop (o + 10)

/-- The per-mutation rewrite of `addTransaction` (lines 126-131): a
`SetVersionstampedKey` has its key parameter rewritten, a
`SetVersionstampedValue` its value parameter; other mutations pass through. -/
def rewriteMutation (version : Version) (batchIndex : ℕ) (m : Mutation) : Mutation :=
  match m.mtype with
  | .SetVersionstampedKey => { m with param1 := transformVersionstamp m.param1 version batchIndex }
  | .SetVersionstampedValue => { m with param2 := transformVersionstamp m.param2 version batchIndex }
  | _ => m

/-- The system key constants the commit pipeline compares against
(`databaseLockedKey`, `nonMetadataSystemKeys.end`, the reserved metadata
subrange); their concrete byte values live outside the provided sources, so
they are carried as a record. -/
structure SystemKeys where
  metadataBegin : Key
  metadataEnd : Key
  databaseLockedKey : Key
  databaseLockedKeyEnd : Key
  nonMetadataSystemKeysEnd : Key
deriving DecidableEq

/-- Modelled from the spec: `isMetadataMutation` — a mutation is a metadata
mutation iff it targets the reserved metadata subrange (for a clear, iff its
range intersects that subrange). -/
def isMetadataMutation (sk : SystemKeys) (m : Mutation) : Bool :=
  match m.mtype with
  | .ClearRange => rangesIntersect (m.param1, m.param2) (sk.metadataBegin, sk.metadataEnd)
  | _ => keyLe sk.metadataBegin m.param1 && keyLt m.param1 sk.metadataEnd

/-- The mutation loop of `addTransaction` (lines 125-136): rewrites
versionstamped mutations, collects the write-conflict ranges generated by
`SetVersionstampedKey` rewrites, and collects the (rewritten) metadata
mutations copied to resolver 0.  Returns the rewritten mutation list, the
generated write-conflict ranges and the metadata mutations, all in source
order. -/
def mutationLoop (sk : SystemKeys) (version : Version) (batchIndex : ℕ) :
    List Mutation → List Mutation × List KeyRange × List Mutation
  | [] => ([], [], [])
  | m :: ms =>
    let m1 := rewriteMutation version batchIndex m
    let wcr : List KeyRange := if m.mtype = .SetVersionstampedKey then [singleKeyRange m1.param1] else []
    let meta : List Mutation := if isMetadataMutation sk m1 then [m1] else []
    let rest := mutationLoop sk version batchIndex ms
    (m1 :: rest.1, wcr ++ rest.2.1, meta ++ rest.2.2)

/-- The client-visible part of a `CommitTransactionRef`. -/
structure CommitTransaction where
  read_snapshot : Version
  mutations : List Mutation
  read_conflict_ranges : List KeyRange
  write_conflict_ranges : List KeyRange
  report_conflicting_keys : Bool
deriving DecidableEq

/-- A `CommitTransactionRequest`: the transaction plus its lock-aware flag. -/
structure CommitTransactionRequest where
  transaction : CommitTransaction
  lockAware : Bool
deriving DecidableEq

/-- Append `x` to the sublist at position `r` (the effect of pushing onto one
resolver's per-transaction record). -/
def pushAt {α : Type} (acc : List (List α)) (r : ℕ) (x : α) : List (List α) :=
  acc.set r (acc.getD r [] ++ [x])

/-- Push `x` onto every resolver in `rs`. -/
def pushAll {α : Type} (acc : List (List α)) (rs : List ℕ) (x : α) : List (List α) :=
  rs.foldl (fun a r => pushAt a r x) acc

/-- Route each item of a list to the resolvers its selector names, appending
in traversal order (the shape of the two conflict-range loops of
`addTransaction`). -/
def routeItems {α : Type} (sel : α → List ℕ) : List (List α) → List α → List (List α)
  | acc, [] => acc
  | acc, x :: rest => routeItems sel (pushAll acc (sel x) x) rest

/-- The per-transaction output of `ResolutionRequestBuilder::addTransaction`:
the modified transaction, the `(original index, range)` pairs routed to each
resolver for read conflicts, the write-conflict ranges routed to each
resolver, the recorded read-conflict index map, the list of resolvers that
received the transaction (`transactionResolverMap` entry), and the txn-state
flag. -/
structure AddTxResult where
  trOut : CommitTransaction
  routedReads : List (List (ℕ × KeyRange))
  routedWrites : List (List KeyRange)
  rCRIndexMap : List (List ℕ)
  resolversUsed : List ℕ
  isTXNState : Bool
deriving DecidableEq

/-- `ResolutionRequestBuilder::addTransaction` (lines 118-188) for one
transaction at position `batchIndex` of the batch: rewrite versionstamped
mutations (each `SetVersionstampedKey` adding a write-conflict range on the
resulting key), detect metadata mutations, synthesize a read-conflict range
on the database-locked key for non-lock-aware txn-state transactions, route
every read-conflict range (with its original index recorded per resolver)
and every write-conflict range to the resolvers owning it, and record which
resolvers received the transaction — every resolver, for a txn-state
transaction. -/
def addTransaction (sk : SystemKeys) (krm : KeyResolverMap) (numResolvers : ℕ)
    (version : Version) (trRequest : CommitTransactionRequest) (batchIndex : ℕ) : AddTxResult :=
  let trIn := trRequest.transaction
  let looped := mutationLoop sk version batchIndex trIn.mutations
  let isTXNState := !looped.2.2.isEmpty
  let rcrs := trIn.read_conflict_ranges ++
    (if isTXNState && !trRequest.lockAware then [(sk.databaseLockedKey, sk.databaseLockedKeyEnd)] else [])
  let wcrs := trIn.write_conflict_ranges ++ looped.2.1
  let readSel : ℕ × KeyRange → List ℕ :=
    fun p => readConflictResolvers krm p.2 trIn.read_snapshot
  let routedReads := routeItems readSel (List.replicate numResolvers []) rcrs.enum
  let writeSel : KeyRange → List ℕ := fun r => writeConflictResolvers krm r
  let routedWrites := routeItems writeSel (List.replicate numResolvers []) wcrs
  let rCRIndexMap := routedReads.map (fun l => l.map (·.1))
  let resolversUsed := (List.range numResolvers).filter
    (fun r => isTXNState || !(routedReads.getD r []).isEmpty || !(routedWrites.getD r []).isEmpty)
  let trOut : CommitTransaction :=
    { trIn with mutations := looped.1, read_conflict_ranges := rcrs, write_conflict_ranges := wcrs }
  { trOut := trOut, routedReads := routedReads, routedWrites := routedWrites,
    rCRIndexMap := rCRIndexMap, resolversUsed := resolversUsed, isTXNState := isTXNState }

/-- `getResolution` builds the per-transaction resolver routing by calling
`addTransaction` on each transaction in batch order. -/
def buildResolution (sk : SystemKeys) (krm : KeyResolverMap) (numResolvers : ℕ)
    (version : Version) (trs : List CommitTransactionRequest) : List AddTxResult :=
  trs.enum.map (fun p => addTransaction sk krm numResolvers version p.2 p.1)

end CommitProxy

namespace CommitProxy

/-- The wakeups of the MVCC-window wait loop of `postResolution`
(CommitProxyServer.actor.cpp lines 996-1025).  Each event carries the local
`committedVersion` observed when the task resumes (the committed version is a
notified value raised concurrently by other batches, so it can only grow):
`versionReached` is `committedVersion.whenAtLeast(target)` firing,
`proxiesChanged` is `onProxiesChanged` firing, and `masterReply v` is a
`GetRawCommittedVersion` reply carrying version `v`. -/
inductive MvccEvent
  | versionReached (cv : Version)
  | proxiesChanged (cv : Version)
  | masterReply (v : Version) (cv : Version)
deriving DecidableEq

/-- The MVCC wait loop: starting from committed version `cv`, consume wakeup
events until the while-condition `committedVersion < commitVersion - W`
fails, then push; `versionReached` breaks out of the loop directly (its
firing guarantees the target is reached).  A `masterReply v` adopts `v`
when it is above the current committed version (lines 1012-1016).  The
result is the committed version at push time, or `none` if the events are
exhausted while still waiting. -/
def mvccWait (tgt : Version) : Version → List MvccEvent → Option Version
  | cv, [] => if tgt ≤ cv then some cv else none
  | cv, e :: rest =>
    if tgt ≤ cv then some cv
    else
      match e with
      | .versionReached cv2 => some (max cv cv2)
      | .proxiesChanged cv2 => mvccWait tgt (max cv cv2) rest
      | .masterReply v cv2 =>
        mvccWait tgt (if v > max cv cv2 then v else max cv cv2) rest

/-- Well-formedness of an event trace: `whenAtLeast(tgt)` only fires once the
notified committed version has reached `tgt`. -/
def mvccEventsWF (tgt : Version) (evs : List MvccEvent) : Prop :=
  ∀ cv2 : Version, MvccEvent.versionReached cv2 ∈ evs → tgt ≤ cv2

/-- The wait loop only ever returns a committed version at or above its
target. -/
theorem mvccWait_ge (tgt : Version) (evs : List MvccEvent) (hwf : mvccEventsWF tgt evs) :
    ∀ cv cvPush : Version, mvccWait tgt cv evs = some cvPush → tgt ≤ cvPush := by
  induction evs with
  | nil =>
    intro cv cvPush h
    simp only [mvccWait] at h
    split at h
    · cases h; assumption
    · cases h
  | cons e rest ih =>
    intro cv cvPush h
    have hwfRest : mvccEventsWF tgt rest :=
      fun cv2 hm => hwf cv2 (List.mem_cons_of_mem _ hm)
    cases e with
    | versionReached cv2 =>
      simp only [mvccWait] at h
      split at h
      · cases h; assumption
      · cases h
        exact le_trans (hwf cv2 (List.mem_cons_self _ _)) (le_max_right cv cv2)
    | proxiesChanged cv2 =>
      simp only [mvccWait] at h
      split at h
      · cases h; assumption
      · exact ih hwfRest _ _ h
    | masterReply v cv2 =>
      simp only [mvccWait] at h
      split at h
      · cases h; assumption
      · exact ih hwfRest _ _ h

/-- C2: the MVCC window guard.  Whenever the post-resolution phase reaches the
push (the wait loop returns a committed version `cvPush`), the batch commit
version exceeds `cvPush` by at most `MAX_READ_TRANSACTION_LIFE_VERSIONS`:
no batch is pushed while the committed version lags by more than the MVCC
window, and the loop waits on the committed version, a proxy-list change or
a master refresh until the lag is inside the window. -/
theorem c2_mvcc_window_guard (maxReadTransactionLifeVersions commitVersion : Version)
    (evs : List MvccEvent)
    (hwf : mvccEventsWF (commitVersion - maxReadTransactionLifeVersions) evs) :
    ∀ cv cvPush : Version,
      mvccWait (commitVersion - maxReadTransactionLifeVersions) cv evs = some cvPush →
      commitVersion - cvPush ≤ maxReadTransactionLifeVersions := by
  intro cv cvPush h
  have := mvccWait_ge (commitVersion - maxReadTransactionLifeVersions) evs hwf cv cvPush h
  linarith

/-- C2 witness: a concrete run in which a master refresh lifts the committed
version into the window and the batch is pushed there. -/
theorem c2_witness :
    mvccWait (100 - 10) 50 [MvccEvent.masterReply 95 80] = some 95 ∧
    (100 : ℤ) - 95 ≤ 10 :=
  ⟨by decide,
   c2_mvcc_window_guard 10 100 [MvccEvent.masterReply 95 80]
     (by intro cv2 hm; simp [mvccEventsWF] at hm) 50 95 (by decide)⟩

/-- The guarded committed-version update of `CommitBatch::reply` lines
1138-1142 (the same guard protects the master-refresh update at lines
1012-1016): the local committed version is overwritten only by a strictly
greater commit version. -/
def advanceCommittedVersion (cur new : Version) : Version :=
  if new > cur then new else cur

/-- The externally visible actions of the version-reporting segment of
`CommitBatch::reply`. -/
inductive ReplyAction
  | report (v : Version)
  | advance (v : Version)
deriving DecidableEq

/-- The version-reporting segment of `CommitBatch::reply` (lines 1127-1142):
with `cv0` the local committed version read at the report check and `cv1`
the one read at the advance check, the proxy first reports the commit
version to the master (awaiting the reply) whenever `commitVersion ≥ cv0`,
and only afterwards advances the local committed version (when
`commitVersion > cv1`). -/
def replyVersionActions (commitVersion cv0 cv1 : Version) : List ReplyAction :=
  (if cv0 ≤ commitVersion then [ReplyAction.report commitVersion] else []) ++
  (if cv1 < commitVersion then [ReplyAction.advance commitVersion] else [])

/-- C3: the local committed version is monotonically non-decreasing — the
update function never lowers it and changes it only to a strictly greater
commit version — and in `CommitBatch::reply`, whenever the local committed
version is advanced to the batch commit version, a
`ReportRawCommittedVersion` for that version was sent to the master (and
its reply awaited) beforehand: the action trace is exactly
`[report v, advance v]`.  `cv0 ≤ cv1` holds because the committed version
only grows between the two reads. -/
theorem c3_committed_version_monotone :
    (∀ cur new : Version, cur ≤ advanceCommittedVersion cur new) ∧
    (∀ cur new : Version, advanceCommittedVersion cur new ≠ cur →
      cur < new ∧ advanceCommittedVersion cur new = new) ∧
    (∀ commitVersion cv0 cv1 v : Version, cv0 ≤ cv1 →
      ReplyAction.advance v ∈ replyVersionActions commitVersion cv0 cv1 →
      replyVersionActions commitVersion cv0 cv1 = [ReplyAction.report v, ReplyAction.advance v]) := by
  refine ⟨?_, ?_, ?_⟩
  · intro cur new
    unfold advanceCommittedVersion
    split
    · next hlt => exact le_of_lt hlt
    · exact le_refl cur
  · intro cur new h
    unfold advanceCommittedVersion at h ⊢
    by_cases hlt : new > cur
    · exact ⟨hlt, if_pos hlt⟩
    · rw [if_neg hlt] at h
      exact absurd rfl h
  · intro commitVersion cv0 cv1 v h01 hmem
    unfold replyVersionActions at hmem ⊢
    by_cases h1 : cv1 < commitVersion
    · have h0 : cv0 ≤ commitVersion := le_of_lt (lt_of_le_of_lt h01 h1)
      rw [if_pos h1] at hmem
      rw [if_pos h0] at hmem ⊢
      rw [if_pos h1]
      have hv : v = commitVersion := by
        rcases List.mem_append.mp hmem with hm | hm
        · simp at hm
        · simp at hm
          exact hm
      rw [hv]
      rfl
    · rw [if_neg h1, List.append_nil] at hmem
      by_cases h0 : cv0 ≤ commitVersion
      · rw [if_pos h0] at hmem
        simp at hmem
      · rw [if_neg h0] at hmem
        simp at hmem

/-- C3 witness: the reporting segment at concrete versions performs the
report before the advance. -/
theorem c3_witness :
    (50 : ℤ) ≤ advanceCommittedVersion 50 80 ∧
    replyVersionActions 80 50 50 = [ReplyAction.report 80, ReplyAction.advance 80] :=
  ⟨c3_committed_version_monotone.1 50 80,
   c3_committed_version_monotone.2.2 80 50 50 80 (le_refl 50) (by decide)⟩

end CommitProxy

namespace CommitProxy

/-- Modelled from the spec: the `ConflictBatch` transaction verdict values
(the enum lives outside the provided sources), numbered so that the minimum
of two verdicts is the most restrictive: conflict < too-old < committed. -/
def TransactionConflict : ℕ := 0

/-- Modelled from the spec: the too-old verdict value. -/
def TransactionTooOld : ℕ := 1

/-- Modelled from the spec: the committed verdict value. -/
def TransactionCommitted : ℕ := 2

/-- The fields of a resolver's `ResolveTransactionBatchReply` that the
commit-determination and reply code reads: the verdict list aligned with the
transactions the resolver received, and the per-received-transaction list of
conflicting read-conflict-range indices (state mutations are consumed by
`applyMetadataEffect`, outside these claims). -/
structure ResolveTransactionBatchReply where
  committed : List ℕ
  conflictingKeyRangeMap : List (List ℕ)
deriving DecidableEq

/-- The all-empty resolver reply, used as a lookup default. -/
def emptyReply : ResolveTransactionBatchReply :=
  { committed := [], conflictingKeyRangeMap := [] }

/-- `self->nextTr[r]++` on the running per-resolver transaction counters. -/
def bumpOne (next : ℕ → ℕ) (r : ℕ) : ℕ → ℕ :=
  fun x => if x = r then next x + 1 else next x

/-- Increment the counters once per use in `rs` (the per-transaction update
of the counters). -/
def bumpAll (next : ℕ → ℕ) (rs : List ℕ) : ℕ → ℕ :=
  rs.foldl bumpOne next

/-- The number of occurrences of resolver `r` in a resolver list. -/
def occ (r : ℕ) (rs : List ℕ) : ℕ :=
  (rs.filter (fun x => x = r)).length

/-- How many of the first `t` transactions used resolver `r`: the value of
the running counter `nextTr[r]` when transaction `t` is processed. -/
def usesBefore (map : List (List ℕ)) (t r : ℕ) : ℕ :=
  ((map.take t).map (occ r)).sum

/-- The verdict a resolver returned at a given position of its verdict list. -/
def verdictAt (resolution : List ResolveTransactionBatchReply) (r i : ℕ) : ℕ :=
  (resolution.getD r emptyReply).committed.getD i TransactionConflict

/-- The inner fold of `determineCommittedTransactions` (lines 703-707): fold
the minimum of the per-resolver verdicts at the running counters, bumping
each counter as it is consumed. -/
def verdictFold (resolution : List ResolveTransactionBatchReply) (rs : List ℕ)
    (st : ℕ × (ℕ → ℕ)) : ℕ × (ℕ → ℕ) :=
  rs.foldl (fun p r => (min (verdictAt resolution r (p.2 r)) p.1, bumpOne p.2 r)) st

/-- The outer loop of `determineCommittedTransactions` (lines 701-708): per
transaction, the minimum of the verdicts of exactly the resolvers in its
`transactionResolverMap` entry, consuming each resolver's verdict list in
order. -/
def determineCommittedLoop (resolution : List ResolveTransactionBatchReply) :
    List (List ℕ) → (ℕ → ℕ) → List ℕ
  | [], _ => []
  | rs :: rest, next =>
    let p := verdictFold resolution rs (TransactionCommitted, next)
    p.1 :: determineCommittedLoop resolution rest p.2

/-- Whether some mutation of the transaction targets a key at or above
`nonMetadataSystemKeys.end` (lines 721-727). -/
def hasSystemMutation (sysEnd : Key) (tr : CommitTransaction) : Bool :=
  tr.mutations.any (fun m =>
    keyLe sysEnd (match m.mtype with | .ClearRange => m.param2 | _ => m.param1))

/-- `determineCommittedTransactions` (lines 694-734): combine the resolver
verdicts per transaction, then, when the `mustContainSystemMutations` key is
set, demote to conflict every committed transaction none of whose mutations
reaches the system keyspace.  `trsOut` are the transactions as rewritten by
the resolution request builder (the code reads the in-place-mutated
requests). -/
def determineCommittedTransactions (resolution : List ResolveTransactionBatchReply)
    (map : List (List ℕ)) (mustContainSystemKey : Bool) (sysEnd : Key)
    (trsOut : List CommitTransaction) : List ℕ :=
  let committed := determineCommittedLoop resolution map (fun _ => 0)
  if mustContainSystemKey then
    (committed.zip trsOut).map (fun p =>
      if p.1 = TransactionCommitted && !(hasSystemMutation sysEnd p.2) then
        TransactionConflict
      else p.1)
  else committed

/-- The reply sent to one client transaction: a `CommitID` with the commit
version and batch index, `transaction_too_old`, conflicting-key-range
indices through `CommitID`, or `not_committed`. -/
inductive CommitReply
  | committedReply (version : Version) (batchIndex : ℕ)
  | tooOld
  | conflictingKeys (idxs : List ℕ)
  | notCommitted
deriving DecidableEq

/-- `!self->locked || tr.isLockAware()`: whether a transaction may commit
under the database-locked state read at commit time. -/
def lockCompatible (locked : Bool) (tr : CommitTransactionRequest) : Bool :=
  !locked || tr.lockAware

/-- The conflicting-index remap of `CommitBatch::reply` (lines 1166-1178):
for every resolver of the transaction, map the resolver-local conflicting
range indices back through the recorded read-conflict-range index map. -/
def conflictIndicesFor (resolution : List ResolveTransactionBatchReply)
    (ixm : List (List ℕ)) (rs : List ℕ) (next : ℕ → ℕ) : List ℕ :=
  (rs.map (fun r =>
    ((resolution.getD r emptyReply).conflictingKeyRangeMap.getD (next r) []).map
      (fun k => (ixm.getD r []).getD k 0))).flatten

/-- The data the reply loop reads for one transaction: the request (for the
lock-aware and report flags), its combined commit status, its resolver list
and its read-conflict-range index map. -/
structure ReplyItem where
  tr : CommitTransactionRequest
  commitStatus : ℕ
  resolvers : List ℕ
  ixm : List (List ℕ)

/-- The reply decision for one transaction (lines 1154-1186). -/
def replyOne (commitVersion : Version) (locked : Bool)
    (resolution : List ResolveTransactionBatchReply) (item : ReplyItem)
    (next : ℕ → ℕ) (t : ℕ) : CommitReply :=
  if item.commitStatus = TransactionCommitted ∧ lockCompatible locked item.tr then
    .committedReply commitVersion t
  else if item.commitStatus = TransactionTooOld then .tooOld
  else if item.tr.transaction.report_conflicting_keys then
    .conflictingKeys (conflictIndicesFor resolution item.ixm item.resolvers next)
  else .notCommitted

/-- The client-reply loop of `CommitBatch::reply` (lines 1153-1189): replies
in submission order, advancing the per-resolver counters after each
transaction. -/
def replyLoop (commitVersion : Version) (locked : Bool)
    (resolution : List ResolveTransactionBatchReply) :
    List ReplyItem → (ℕ → ℕ) → ℕ → List CommitReply
  | [], _, _ => []
  | item :: rest, next, t =>
    replyOne commitVersion locked resolution item next t ::
      replyLoop commitVersion locked resolution rest (bumpAll next item.resolvers) (t + 1)

/-- Zip the per-transaction reply inputs (the source indexes four parallel
per-transaction arrays). -/
def zipReplyItems : List CommitTransactionRequest → List ℕ → List (List ℕ) →
    List (List (List ℕ)) → List ReplyItem
  | tr :: trs, c :: cs, rs :: ms, ix :: ixs =>
    { tr := tr, commitStatus := c, resolvers := rs, ixm := ix } :: zipReplyItems trs cs ms ixs
  | _, _, _, _ => []

/-- A placeholder transaction request used as a lookup default. -/
def defaultTr : CommitTransactionRequest :=
  { transaction := { read_snapshot := 0, mutations := [], read_conflict_ranges := [],
                     write_conflict_ranges := [], report_conflicting_keys := false },
    lockAware := false }

/-- A placeholder reply item used as a lookup default. -/
def defaultItem : ReplyItem :=
  { tr := defaultTr, commitStatus := 0, resolvers := [], ixm := [] }

/-- The commit batch pipeline for the claims about phases 3 and 5: build the
resolver routing, combine the resolver verdicts, and compute the reply for
every transaction of the batch in order. -/
def commitBatchReplies (sk : SystemKeys) (krm : KeyResolverMap) (numResolvers : ℕ)
    (commitVersion : Version) (mustContainSystemKey locked : Bool)
    (trs : List CommitTransactionRequest)
    (resolution : List ResolveTransactionBatchReply) : List CommitReply :=
  let results := buildResolution sk krm numResolvers commitVersion trs
  let map := results.map (fun a => a.resolversUsed)
  let ixmap := results.map (fun a => a.rCRIndexMap)
  let committed := determineCommittedTransactions resolution map mustContainSystemKey
    sk.nonMetadataSystemKeysEnd (results.map (fun a => a.trOut))
  replyLoop commitVersion locked resolution (zipReplyItems trs committed map ixmap)
    (fun _ => 0) 0

end CommitProxy

namespace CommitProxy

theorem getD_indep : ∀ (l : List α) (t : ℕ) (d1 d2 : α), t < l.length →
    l.getD t d1 = l.getD t d2 := by
  intro l
  induction l with
  | nil => intro t d1 d2 h; cases h
  | cons a l ih =>
    intro t d1 d2 h
    cases t with
    | zero => rfl
    | succ t => exact ih t d1 d2 (Nat.lt_of_succ_lt_succ h)

theorem getD_mem : ∀ (l : List α) (t : ℕ) (d : α), t < l.length → l.getD t d ∈ l := by
  intro l
  induction l with
  | nil => intro t d h; cases h
  | cons a l ih =>
    intro t d h
    cases t with
    | zero => exact List.mem_cons_self a l
    | succ t => exact List.mem_cons_of_mem a (ih t d (Nat.lt_of_succ_lt_succ h))

theorem getD_map_apply (f : α → β) : ∀ (l : List α) (t : ℕ) (d : α), t < l.length →
    (l.map f).getD t (f d) = f (l.getD t d) := by
  intro l
  induction l with
  | nil => intro t d h; cases h
  | cons a l ih =>
    intro t d h
    cases t with
    | zero => rfl
    | succ t => exact ih t d (Nat.lt_of_succ_lt_succ h)

theorem getD_enumFrom : ∀ (l : List α) (n t : ℕ) (d : α), t < l.length →
    (List.enumFrom n l).getD t (n + t, d) = (n + t, l.getD t d) := by
  intro l
  induction l with
  | nil => intro n t d h; cases h
  | cons a l ih =>
    intro n t d h
    cases t with
    | zero => rfl
    | succ t =>
      have h2 := ih (n + 1) t d (Nat.lt_of_succ_lt_succ h)
      show (List.enumFrom (n + 1) l).getD t (n + (t + 1), d) = (n + (t + 1), l.getD t d)
      have harith : n + (t + 1) = (n + 1) + t := by omega
      rw [harith]
      exact h2

theorem getD_enum : ∀ (l : List α) (t : ℕ) (d : α), t < l.length →
    l.enum.getD t (t, d) = (t, l.getD t d) := by
  intro l t d h
  have h2 := getD_enumFrom l 0 t d h
  rw [Nat.zero_add] at h2
  exact h2

theorem nodup_getD_inj : ∀ (l : List ℕ), l.Nodup → ∀ i j : ℕ, i < l.length → j < l.length →
    l.getD i 0 = l.getD j 0 → i = j := by
  intro l
  induction l with
  | nil => intro _ i j hi; cases hi
  | cons a l ih =>
    intro hnd i j hi hj heq
    have ha : a ∉ l := (List.nodup_cons.mp hnd).1
    cases i with
    | zero =>
      cases j with
      | zero => rfl
      | succ j =>
        exfalso
        apply ha
        rw [show (a :: l).getD 0 0 = a from rfl] at heq
        rw [show (a :: l).getD (j + 1) 0 = l.getD j 0 from rfl] at heq
        rw [heq]
        exact getD_mem l j 0 (Nat.lt_of_succ_lt_succ hj)
    | succ i =>
      cases j with
      | zero =>
        exfalso
        apply ha
        rw [show (a :: l).getD 0 0 = a from rfl] at heq
        rw [show (a :: l).getD (i + 1) 0 = l.getD i 0 from rfl] at heq
        rw [← heq]
        exact getD_mem l i 0 (Nat.lt_of_succ_lt_succ hi)
      | succ j =>
        have := ih (List.nodup_cons.mp hnd).2 i j
          (Nat.lt_of_succ_lt_succ hi) (Nat.lt_of_succ_lt_succ hj) heq
        omega

theorem getD_set_self : ∀ (l : List α) (r : ℕ) (x d : α), r < l.length →
    (l.set r x).getD r d = x := by
  intro l
  induction l with
  | nil => intro r x d h; cases h
  | cons a l ih =>
    intro r x d h
    cases r with
    | zero => rfl
    | succ r => exact ih r x d (Nat.lt_of_succ_lt_succ h)

theorem getD_set_other : ∀ (l : List α) (r r2 : ℕ) (x d : α), r2 ≠ r →
    (l.set r x).getD r2 d = l.getD r2 d := by
  intro l
  induction l with
  | nil => intro r r2 x d _; rfl
  | cons a l ih =>
    intro r r2 x d hne
    cases r with
    | zero =>
      cases r2 with
      | zero => exact absurd rfl hne
      | succ r2 => rfl
    | succ r =>
      cases r2 with
      | zero => rfl
      | succ r2 => exact ih r r2 x d (fun h => hne (by rw [h]))

theorem getD_replicate_nil : ∀ (n r : ℕ), (List.replicate n ([] : List α)).getD r [] = [] := by
  intro n
  induction n with
  | zero => intro r; rfl
  | succ n ih =>
    intro r
    cases r with
    | zero => rfl
    | succ r => exact ih r

theorem length_pushAt (acc : List (List α)) (r : ℕ) (x : α) :
    (pushAt acc r x).length = acc.length :=
  List.length_set acc r _

theorem length_pushAll : ∀ (rs : List ℕ) (acc : List (List α)) (x : α),
    (pushAll acc rs x).length = acc.length := by
  intro rs
  induction rs with
  | nil => intro acc x; rfl
  | cons a rs ih =>
    intro acc x
    show (pushAll (pushAt acc a x) rs x).length = acc.length
    rw [ih, length_pushAt]

theorem length_routeItems (sel : α → List ℕ) : ∀ (xs : List α) (acc : List (List α)),
    (routeItems sel acc xs).length = acc.length := by
  intro xs
  induction xs with
  | nil => intro acc; rfl
  | cons x xs ih =>
    intro acc
    show (routeItems sel (pushAll acc (sel x) x) xs).length = acc.length
    rw [ih, length_pushAll]

theorem getD_pushAll : ∀ (rs : List ℕ) (acc : List (List α)) (x : α) (r : ℕ),
    rs.Nodup → r < acc.length →
    (pushAll acc rs x).getD r [] = acc.getD r [] ++ (if r ∈ rs then [x] else []) := by
  intro rs
  induction rs with
  | nil =>
    intro acc x r _ _
    simp [pushAll]
  | cons a rs ih =>
    intro acc x r hnd hr
    have hstep : pushAll acc (a :: rs) x = pushAll (pushAt acc a x) rs x := rfl
    rw [hstep, ih (pushAt acc a x) x r (List.nodup_cons.mp hnd).2 (by rw [length_pushAt]; exact hr)]
    by_cases hra : r = a
    · subst hra
      have hnotin : r ∉ rs := (List.nodup_cons.mp hnd).1
      have hs : (pushAt acc r x).getD r [] = acc.getD r [] ++ [x] :=
        getD_set_self acc r _ [] hr
      rw [hs]
      simp [hnotin]
    · rw [show (pushAt acc a x).getD r [] = acc.getD r [] from getD_set_other acc a r _ [] hra]
      by_cases hmem : r ∈ rs
      · simp [hmem, hra]
      · simp [hmem, hra]

theorem routeItems_getD (sel : α → List ℕ) :
    ∀ (xs : List α) (acc : List (List α)) (r : ℕ),
    (∀ x ∈ xs, (sel x).Nodup) → r < acc.length →
    (routeItems sel acc xs).getD r []
      = acc.getD r [] ++ xs.filter (fun x => decide (r ∈ sel x)) := by
  intro xs
  induction xs with
  | nil =>
    intro acc r _ _
    simp [routeItems]
  | cons x xs ih =>
    intro acc r hnd hr
    have hstep : routeItems sel acc (x :: xs) = routeItems sel (pushAll acc (sel x) x) xs := rfl
    rw [hstep, ih (pushAll acc (sel x) x) r (fun y hy => hnd y (List.mem_cons_of_mem x hy))
      (by rw [length_pushAll]; exact hr)]
    rw [getD_pushAll (sel x) acc x r (hnd x (List.mem_cons_self x xs)) hr]
    by_cases hmem : r ∈ sel x
    · simp [hmem]
    · simp [hmem]

end CommitProxy

namespace CommitProxy

theorem mem_insertSorted : ∀ (l : List ℕ) (r a : ℕ), a ∈ insertSorted r l ↔ a = r ∨ a ∈ l := by
  intro l
  induction l with
  | nil =>
    intro r a
    simp [insertSorted]
  | cons x xs ih =>
    intro r a
    show a ∈ (if r < x then r :: x :: xs else if r = x then x :: xs else x :: insertSorted r xs)
      ↔ a = r ∨ a ∈ x :: xs
    by_cases h1 : r < x
    · simp [h1]
    · by_cases h2 : r = x
      · subst h2
        simp [h1]
      · simp [h1, h2, ih]
        tauto

theorem sorted_insertSorted : ∀ (l : List ℕ) (r : ℕ),
    l.Sorted (· < ·) → (insertSorted r l).Sorted (· < ·) := by
  intro l
  induction l with
  | nil =>
    intro r _
    simp [insertSorted]
  | cons x xs ih =>
    intro r hs
    rw [List.sorted_cons] at hs
    show List.Sorted (· < ·) (if r < x then r :: x :: xs
      else if r = x then x :: xs else x :: insertSorted r xs)
    by_cases h1 : r < x
    · rw [if_pos h1, List.sorted_cons]
      constructor
      · intro b hb
        rcases List.mem_cons.mp hb with hb | hb
        · rw [hb]; exact h1
        · exact lt_trans h1 (hs.1 b hb)
      · rw [List.sorted_cons]
        exact hs
    · by_cases h2 : r = x
      · rw [if_neg h1, if_pos h2, List.sorted_cons]
        exact hs
      · rw [if_neg h1, if_neg h2, List.sorted_cons]
        constructor
        · intro b hb
          rcases (mem_insertSorted xs r b).mp hb with hb | hb
          · rw [hb]
            omega
          · exact hs.1 b hb
        · exact ih r hs.2

theorem sorted_setOfList (rs : List ℕ) : (setOfList rs).Sorted (· < ·) := by
  have general : ∀ (l acc : List ℕ), acc.Sorted (· < ·) →
      (l.foldl (fun a r => insertSorted r a) acc).Sorted (· < ·) := by
    intro l
    induction l with
    | nil => intro acc h; exact h
    | cons x xs ih =>
      intro acc h
      exact ih (insertSorted x acc) (sorted_insertSorted acc x h)
  exact general rs [] (by simp)

theorem nodup_setOfList (rs : List ℕ) : (setOfList rs).Nodup :=
  (sorted_setOfList rs).nodup

theorem nodup_readConflictResolvers (krm : KeyResolverMap) (r : KeyRange) (snapshot : Version) :
    (readConflictResolvers krm r snapshot).Nodup :=
  nodup_setOfList _

theorem nodup_writeConflictResolvers (krm : KeyResolverMap) (r : KeyRange) :
    (writeConflictResolvers krm r).Nodup :=
  nodup_setOfList _

theorem mutationLoop_fst (sk : SystemKeys) (version : Version) (batchIndex : ℕ) :
    ∀ ms : List Mutation,
    (mutationLoop sk version batchIndex ms).1 = ms.map (rewriteMutation version batchIndex) := by
  intro ms
  induction ms with
  | nil => rfl
  | cons m ms ih =>
    show rewriteMutation version batchIndex m :: (mutationLoop sk version batchIndex ms).1
      = rewriteMutation version batchIndex m :: ms.map (rewriteMutation version batchIndex)
    rw [ih]

theorem mutationLoop_wcrs (sk : SystemKeys) (version : Version) (batchIndex : ℕ) :
    ∀ ms : List Mutation,
    (mutationLoop sk version batchIndex ms).2.1
      = (ms.filter (fun m => decide (m.mtype = MutationType.SetVersionstampedKey))).map
          (fun m => singleKeyRange (transformVersionstamp m.param1 version batchIndex)) := by
  intro ms
  induction ms with
  | nil => rfl
  | cons m ms ih =>
    show (if m.mtype = MutationType.SetVersionstampedKey
        then [singleKeyRange (rewriteMutation version batchIndex m).param1] else [])
        ++ (mutationLoop sk version batchIndex ms).2.1 = _
    rw [ih]
    by_cases hm : m.mtype = MutationType.SetVersionstampedKey
    · have hrw : (rewriteMutation version batchIndex m).param1
          = transformVersionstamp m.param1 version batchIndex := by
        unfold rewriteMutation
        rw [hm]
      rw [if_pos hm, hrw]
      simp [hm]
    · rw [if_neg hm]
      simp [hm]

theorem mutationLoop_metas_nil (sk : SystemKeys) (version : Version) (batchIndex : ℕ) :
    ∀ ms : List Mutation,
    (∀ m ∈ ms, isMetadataMutation sk (rewriteMutation version batchIndex m) = false) →
    (mutationLoop sk version batchIndex ms).2.2 = [] := by
  intro ms
  induction ms with
  | nil => intro _; rfl
  | cons m ms ih =>
    intro h
    show (if isMetadataMutation sk (rewriteMutation version batchIndex m)
        then [rewriteMutation version batchIndex m] else [])
        ++ (mutationLoop sk version batchIndex ms).2.2 = []
    rw [ih (fun x hx => h x (List.mem_cons_of_mem m hx)),
      if_neg (by rw [h m (List.mem_cons_self m ms)]; exact Bool.false_ne_true)]
    rfl

end CommitProxy

namespace CommitProxy

theorem occ_cons (r a : ℕ) (rs : List ℕ) :
    occ r (a :: rs) = (if a = r then 1 else 0) + occ r rs := by
  unfold occ
  by_cases h : a = r
  · simp [h]
    omega
  · simp [h]

theorem bumpAll_apply : ∀ (rs : List ℕ) (next : ℕ → ℕ) (r : ℕ),
    bumpAll next rs r = next r + occ r rs := by
  intro rs
  induction rs with
  | nil =>
    intro next r
    simp [bumpAll, occ]
  | cons a rs ih =>
    intro next r
    show bumpAll (bumpOne next a) rs r = next r + occ r (a :: rs)
    rw [ih, occ_cons]
    unfold bumpOne
    by_cases h : r = a
    · subst h
      simp
      omega
    · rw [if_neg h, if_neg fun hh => h hh.symm]
      omega

theorem usesBefore_zero (map : List (List ℕ)) (r : ℕ) : usesBefore map 0 r = 0 := rfl

theorem usesBefore_cons (rs : List ℕ) (ms : List (List ℕ)) (t r : ℕ) :
    usesBefore (rs :: ms) (t + 1) r = occ r rs + usesBefore ms t r := by
  unfold usesBefore
  rfl

theorem verdictFold_snd (resolution : List ResolveTransactionBatchReply) :
    ∀ (rs : List ℕ) (st : ℕ × (ℕ → ℕ)),
    (verdictFold resolution rs st).2 = bumpAll st.2 rs := by
  intro rs
  induction rs with
  | nil => intro st; rfl
  | cons a rs ih =>
    intro st
    show (verdictFold resolution rs
      (min (verdictAt resolution a (st.2 a)) st.1, bumpOne st.2 a)).2 = bumpAll st.2 (a :: rs)
    rw [ih]
    rfl

theorem verdictFold_fst (resolution : List ResolveTransactionBatchReply) :
    ∀ (rs : List ℕ), rs.Nodup → ∀ (c : ℕ) (next : ℕ → ℕ),
    (verdictFold resolution rs (c, next)).1
      = rs.foldl (fun c r => min (verdictAt resolution r (next r)) c) c := by
  intro rs
  induction rs with
  | nil =>
    intro _ c next
    rfl
  | cons a rs ih =>
    intro hnd c next
    show (verdictFold resolution rs
      (min (verdictAt resolution a (next a)) c, bumpOne next a)).1 = _
    rw [ih (List.nodup_cons.mp hnd).2 _ (bumpOne next a)]
    have hext : rs.foldl (fun c r => min (verdictAt resolution r (bumpOne next a r)) c)
        (min (verdictAt resolution a (next a)) c)
        = rs.foldl (fun c r => min (verdictAt resolution r (next r)) c)
        (min (verdictAt resolution a (next a)) c) := by
      apply List.foldl_ext
      intro c2 b hb
      have hba : b ≠ a := fun h => (List.nodup_cons.mp hnd).1 (h ▸ hb)
      unfold bumpOne
      rw [if_neg hba]
    rw [hext]
    rfl

theorem foldl_min_eq_committed (f : ℕ → ℕ) : ∀ (rs : List ℕ) (a : ℕ),
    (∀ r ∈ rs, f r ≤ 2) → a ≤ 2 →
    ((rs.foldl (fun c r => min (f r) c) a = 2) ↔ (a = 2 ∧ ∀ r ∈ rs, f r = 2)) := by
  intro rs
  induction rs with
  | nil =>
    intro a _ _
    simp
  | cons b rs ih =>
    intro a h2 ha
    have hfb : f b ≤ 2 := h2 b (List.mem_cons_self b rs)
    show (rs.foldl (fun c r => min (f r) c) (min (f b) a) = 2) ↔ _
    rw [ih (min (f b) a) (fun r hr => h2 r (List.mem_cons_of_mem b hr))
      (le_trans (min_le_right _ _) ha)]
    constructor
    · rintro ⟨hmin, hrest⟩
      have hmin2 : f b = 2 ∧ a = 2 := by
        by_cases hle : f b ≤ a
        · rw [min_eq_left hle] at hmin
          omega
        · rw [min_eq_right (le_of_not_le hle)] at hmin
          omega
      refine ⟨hmin2.2, fun r hr => ?_⟩
      rcases List.mem_cons.mp hr with h | h
      · rw [h]
        exact hmin2.1
      · exact hrest r h
    · rintro ⟨ha2, hall⟩
      have hfb2 : f b = 2 := hall b (List.mem_cons_self b rs)
      refine ⟨by rw [hfb2, ha2]; simp, fun r hr => hall r (List.mem_cons_of_mem b hr)⟩

theorem length_determineCommittedLoop (resolution : List ResolveTransactionBatchReply) :
    ∀ (map : List (List ℕ)) (next : ℕ → ℕ),
    (determineCommittedLoop resolution map next).length = map.length := by
  intro map
  induction map with
  | nil => intro next; rfl
  | cons rs ms ih =>
    intro next
    show ((verdictFold resolution rs (TransactionCommitted, next)).1 ::
      determineCommittedLoop resolution ms (verdictFold resolution rs (TransactionCommitted, next)).2).length
      = (rs :: ms).length
    rw [List.length_cons, List.length_cons, ih]

theorem determineCommittedLoop_getD (resolution : List ResolveTransactionBatchReply) :
    ∀ (map : List (List ℕ)) (next : ℕ → ℕ) (t : ℕ), t < map.length →
    (determineCommittedLoop resolution map next).getD t 0
      = (verdictFold resolution (map.getD t [])
          (TransactionCommitted, fun r => next r + usesBefore map t r)).1 := by
  intro map
  induction map with
  | nil => intro next t h; cases h
  | cons rs ms ih =>
    intro next t h
    cases t with
    | zero =>
      show (verdictFold resolution rs (TransactionCommitted, next)).1
        = (verdictFold resolution rs
            (TransactionCommitted, fun r => next r + usesBefore (rs :: ms) 0 r)).1
      have hfun : (fun r => next r + usesBefore (rs :: ms) 0 r) = next := by
        funext r
        rw [usesBefore_zero, Nat.add_zero]
      rw [hfun]
    | succ t =>
      show (determineCommittedLoop resolution ms
          (verdictFold resolution rs (TransactionCommitted, next)).2).getD t 0 = _
      rw [ih _ t (Nat.lt_of_succ_lt_succ h), verdictFold_snd]
      have hfun : (fun r => bumpAll next rs r + usesBefore ms t r)
          = (fun r => next r + usesBefore (rs :: ms) (t + 1) r) := by
        funext r
        rw [bumpAll_apply, usesBefore_cons]
        omega
      rw [hfun]
      rfl

theorem length_replyLoop (commitVersion : Version) (locked : Bool)
    (resolution : List ResolveTransactionBatchReply) :
    ∀ (items : List ReplyItem) (next : ℕ → ℕ) (t0 : ℕ),
    (replyLoop commitVersion locked resolution items next t0).length = items.length := by
  intro items
  induction items with
  | nil => intro next t0; rfl
  | cons item rest ih =>
    intro next t0
    show (replyOne commitVersion locked resolution item next t0 ::
      replyLoop commitVersion locked resolution rest (bumpAll next item.resolvers) (t0 + 1)).length
      = (item :: rest).length
    rw [List.length_cons, List.length_cons, ih]

theorem replyLoop_getD (commitVersion : Version) (locked : Bool)
    (resolution : List ResolveTransactionBatchReply) :
    ∀ (items : List ReplyItem) (next : ℕ → ℕ) (t0 t : ℕ), t < items.length →
    (replyLoop commitVersion locked resolution items next t0).getD t CommitReply.notCommitted
      = replyOne commitVersion locked resolution (items.getD t defaultItem)
          (fun r => next r + usesBefore (items.map (fun it => it.resolvers)) t r) (t0 + t) := by
  intro items
  induction items with
  | nil => intro next t0 t h; cases h
  | cons item rest ih =>
    intro next t0 t h
    cases t with
    | zero =>
      show replyOne commitVersion locked resolution item next t0
        = replyOne commitVersion locked resolution item
            (fun r => next r + usesBefore ((item :: rest).map (fun it => it.resolvers)) 0 r) (t0 + 0)
      have hfun : (fun r => next r + usesBefore ((item :: rest).map (fun it => it.resolvers)) 0 r)
          = next := by
        funext r
        rw [usesBefore_zero, Nat.add_zero]
      rw [hfun, Nat.add_zero]
    | succ t =>
      show (replyLoop commitVersion locked resolution rest
          (bumpAll next item.resolvers) (t0 + 1)).getD t CommitReply.notCommitted = _
      rw [ih _ _ t (Nat.lt_of_succ_lt_succ h)]
      have hfun : (fun r => bumpAll next item.resolvers r + usesBefore (rest.map (fun it => it.resolvers)) t r)
          = (fun r => next r + usesBefore ((item :: rest).map (fun it => it.resolvers)) (t + 1) r) := by
        funext r
        rw [bumpAll_apply]
        show next r + occ r item.resolvers + usesBefore (rest.map (fun it => it.resolvers)) t r = _
        rw [show ((item :: rest).map (fun it => it.resolvers))
          = item.resolvers :: rest.map (fun it => it.resolvers) from rfl, usesBefore_cons]
        omega
      rw [hfun]
      have harith : t0 + 1 + t = t0 + (t + 1) := by omega
      rw [harith]
      rfl

end CommitProxy

namespace CommitProxy

theorem length_zipReplyItems : ∀ (trs : List CommitTransactionRequest) (cs : List ℕ)
    (ms : List (List ℕ)) (ixs : List (List (List ℕ))),
    trs.length = cs.length → trs.length = ms.length → trs.length = ixs.length →
    (zipReplyItems trs cs ms ixs).length = trs.length := by
  intro trs
  induction trs with
  | nil =>
    intro cs ms ixs _ _ _
    cases cs <;> cases ms <;> cases ixs <;> rfl
  | cons tr trs ih =>
    intro cs ms ixs hc hm hx
    cases cs with
    | nil => simp at hc
    | cons c cs =>
      cases ms with
      | nil => simp at hm
      | cons m ms =>
        cases ixs with
        | nil => simp at hx
        | cons ix ixs =>
          show (zipReplyItems trs cs ms ixs).length + 1 = trs.length + 1
          rw [ih cs ms ixs (by simpa using hc) (by simpa using hm) (by simpa using hx)]

theorem zipReplyItems_getD : ∀ (trs : List CommitTransactionRequest) (cs : List ℕ)
    (ms : List (List ℕ)) (ixs : List (List (List ℕ))) (t : ℕ),
    trs.length = cs.length → trs.length = ms.length → trs.length = ixs.length →
    t < trs.length →
    (zipReplyItems trs cs ms ixs).getD t defaultItem
      = { tr := trs.getD t defaultTr, commitStatus := cs.getD t 0,
          resolvers := ms.getD t [], ixm := ixs.getD t [] } := by
  intro trs
  induction trs with
  | nil =>
    intro cs ms ixs t _ _ _ ht
    cases ht
  | cons tr trs ih =>
    intro cs ms ixs t hc hm hx ht
    cases cs with
    | nil => simp at hc
    | cons c cs =>
      cases ms with
      | nil => simp at hm
      | cons m ms =>
        cases ixs with
        | nil => simp at hx
        | cons ix ixs =>
          cases t with
          | zero => rfl
          | succ t =>
            show (zipReplyItems trs cs ms ixs).getD t defaultItem = _
            exact ih cs ms ixs t (by simpa using hc) (by simpa using hm) (by simpa using hx)
              (Nat.lt_of_succ_lt_succ ht)

theorem zipReplyItems_map_resolvers : ∀ (trs : List CommitTransactionRequest) (cs : List ℕ)
    (ms : List (List ℕ)) (ixs : List (List (List ℕ))),
    trs.length = cs.length → trs.length = ms.length → trs.length = ixs.length →
    (zipReplyItems trs cs ms ixs).map (fun it => it.resolvers) = ms := by
  intro trs
  induction trs with
  | nil =>
    intro cs ms ixs _ hm _
    cases ms with
    | nil => cases cs <;> cases ixs <;> rfl
    | cons m ms => simp at hm
  | cons tr trs ih =>
    intro cs ms ixs hc hm hx
    cases cs with
    | nil => simp at hc
    | cons c cs =>
      cases ms with
      | nil => simp at hm
      | cons m ms =>
        cases ixs with
        | nil => simp at hx
        | cons ix ixs =>
          show m :: (zipReplyItems trs cs ms ixs).map (fun it => it.resolvers) = m :: ms
          rw [ih cs ms ixs (by simpa using hc) (by simpa using hm) (by simpa using hx)]

theorem length_buildResolution (sk : SystemKeys) (krm : KeyResolverMap) (numResolvers : ℕ)
    (version : Version) (trs : List CommitTransactionRequest) :
    (buildResolution sk krm numResolvers version trs).length = trs.length := by
  unfold buildResolution
  rw [List.length_map, List.enum_length]

theorem buildResolution_getD (sk : SystemKeys) (krm : KeyResolverMap) (numResolvers : ℕ)
    (version : Version) (trs : List CommitTransactionRequest) (t : ℕ) (h : t < trs.length) :
    (buildResolution sk krm numResolvers version trs).getD t
        (addTransaction sk krm numResolvers version defaultTr 0)
      = addTransaction sk krm numResolvers version (trs.getD t defaultTr) t := by
  unfold buildResolution
  have hlen : t < trs.enum.length := by rw [List.enum_length]; exact h
  have hlen2 : t < (trs.enum.map
      (fun p => addTransaction sk krm numResolvers version p.2 p.1)).length := by
    rw [List.length_map]
    exact hlen
  rw [getD_indep _ t _ (addTransaction sk krm numResolvers version defaultTr t) hlen2]
  have h1 := getD_map_apply (fun p => addTransaction sk krm numResolvers version p.2 p.1)
    trs.enum t (t, defaultTr) hlen
  rw [h1, getD_enum trs t defaultTr h]

theorem addTransaction_resolversUsed (sk : SystemKeys) (krm : KeyResolverMap)
    (numResolvers : ℕ) (version : Version) (tr : CommitTransactionRequest) (i : ℕ) :
    (addTransaction sk krm numResolvers version tr i).resolversUsed
      = (List.range numResolvers).filter (fun r =>
          (addTransaction sk krm numResolvers version tr i).isTXNState
          || !((addTransaction sk krm numResolvers version tr i).routedReads.getD r []).isEmpty
          || !((addTransaction sk krm numResolvers version tr i).routedWrites.getD r []).isEmpty) := rfl

theorem addTransaction_routedReads (sk : SystemKeys) (krm : KeyResolverMap)
    (numResolvers : ℕ) (version : Version) (tr : CommitTransactionRequest) (i : ℕ) :
    (addTransaction sk krm numResolvers version tr i).routedReads
      = routeItems (fun p => readConflictResolvers krm p.2 tr.transaction.read_snapshot)
          (List.replicate numResolvers [])
          ((addTransaction sk krm numResolvers version tr i).trOut.read_conflict_ranges).enum := rfl

theorem addTransaction_routedWrites (sk : SystemKeys) (krm : KeyResolverMap)
    (numResolvers : ℕ) (version : Version) (tr : CommitTransactionRequest) (i : ℕ) :
    (addTransaction sk krm numResolvers version tr i).routedWrites
      = routeItems (fun r => writeConflictResolvers krm r)
          (List.replicate numResolvers [])
          ((addTransaction sk krm numResolvers version tr i).trOut.write_conflict_ranges) := rfl

theorem addTransaction_rCRIndexMap (sk : SystemKeys) (krm : KeyResolverMap)
    (numResolvers : ℕ) (version : Version) (tr : CommitTransactionRequest) (i : ℕ) :
    (addTransaction sk krm numResolvers version tr i).rCRIndexMap
      = (addTransaction sk krm numResolvers version tr i).routedReads.map
          (fun l => l.map (fun p => p.1)) := rfl

theorem addTransaction_trOut_mutations (sk : SystemKeys) (krm : KeyResolverMap)
    (numResolvers : ℕ) (version : Version) (tr : CommitTransactionRequest) (i : ℕ) :
    (addTransaction sk krm numResolvers version tr i).trOut.mutations
      = (mutationLoop sk version i tr.transaction.mutations).1 := rfl

theorem addTransaction_trOut_wcrs (sk : SystemKeys) (krm : KeyResolverMap)
    (numResolvers : ℕ) (version : Version) (tr : CommitTransactionRequest) (i : ℕ) :
    (addTransaction sk krm numResolvers version tr i).trOut.write_conflict_ranges
      = tr.transaction.write_conflict_ranges
        ++ (mutationLoop sk version i tr.transaction.mutations).2.1 := rfl

theorem addTransaction_trOut_rcrs (sk : SystemKeys) (krm : KeyResolverMap)
    (numResolvers : ℕ) (version : Version) (tr : CommitTransactionRequest) (i : ℕ) :
    (addTransaction sk krm numResolvers version tr i).trOut.read_conflict_ranges
      = tr.transaction.read_conflict_ranges
        ++ (if (addTransaction sk krm numResolvers version tr i).isTXNState && !tr.lockAware
            then [(sk.databaseLockedKey, sk.databaseLockedKeyEnd)] else []) := rfl

theorem addTransaction_isTXNState (sk : SystemKeys) (krm : KeyResolverMap)
    (numResolvers : ℕ) (version : Version) (tr : CommitTransactionRequest) (i : ℕ) :
    (addTransaction sk krm numResolvers version tr i).isTXNState
      = !(mutationLoop sk version i tr.transaction.mutations).2.2.isEmpty := rfl

theorem resolversUsed_nodup (sk : SystemKeys) (krm : KeyResolverMap)
    (numResolvers : ℕ) (version : Version) (tr : CommitTransactionRequest) (i : ℕ) :
    (addTransaction sk krm numResolvers version tr i).resolversUsed.Nodup := by
  rw [addTransaction_resolversUsed]
  exact (List.nodup_range numResolvers).filter _

theorem resolversUsed_lt (sk : SystemKeys) (krm : KeyResolverMap)
    (numResolvers : ℕ) (version : Version) (tr : CommitTransactionRequest) (i : ℕ) :
    ∀ r ∈ (addTransaction sk krm numResolvers version tr i).resolversUsed, r < numResolvers := by
  rw [addTransaction_resolversUsed]
  intro r hr
  exact List.mem_range.mp (List.mem_of_mem_filter hr)

end CommitProxy

namespace CommitProxy

/-- The `transactionResolverMap` a commit batch records: per transaction the
resolvers it was sent to. -/
def resolverMapOf (sk : SystemKeys) (krm : KeyResolverMap) (numResolvers : ℕ)
    (version : Version) (trs : List CommitTransactionRequest) : List (List ℕ) :=
  (buildResolution sk krm numResolvers version trs).map (fun a => a.resolversUsed)

/-- The recorded `txReadConflictRangeIndexMap` of a commit batch. -/
def ixMapOf (sk : SystemKeys) (krm : KeyResolverMap) (numResolvers : ℕ)
    (version : Version) (trs : List CommitTransactionRequest) : List (List (List ℕ)) :=
  (buildResolution sk krm numResolvers version trs).map (fun a => a.rCRIndexMap)

/-- The combined commit statuses of a batch when the
`mustContainSystemMutations` key is not set. -/
def committedOf (sk : SystemKeys) (krm : KeyResolverMap) (numResolvers : ℕ)
    (version : Version) (trs : List CommitTransactionRequest)
    (resolution : List ResolveTransactionBatchReply) : List ℕ :=
  determineCommittedLoop resolution (resolverMapOf sk krm numResolvers version trs) (fun _ => 0)

/-- The per-resolver list of flagged conflicting read-conflict-range indices
for transaction `t` (the entry of `conflictingKeyRangeMap` aligned with the
transaction's position on that resolver). -/
def flaggedAt (resolution : List ResolveTransactionBatchReply)
    (mapL : List (List ℕ)) (t r : ℕ) : List ℕ :=
  (resolution.getD r emptyReply).conflictingKeyRangeMap.getD (usesBefore mapL t r) []

theorem resolverMapOf_length (sk : SystemKeys) (krm : KeyResolverMap) (numResolvers : ℕ)
    (version : Version) (trs : List CommitTransactionRequest) :
    (resolverMapOf sk krm numResolvers version trs).length = trs.length := by
  unfold resolverMapOf
  rw [List.length_map, length_buildResolution]

theorem ixMapOf_length (sk : SystemKeys) (krm : KeyResolverMap) (numResolvers : ℕ)
    (version : Version) (trs : List CommitTransactionRequest) :
    (ixMapOf sk krm numResolvers version trs).length = trs.length := by
  unfold ixMapOf
  rw [List.length_map, length_buildResolution]

theorem committedOf_length (sk : SystemKeys) (krm : KeyResolverMap) (numResolvers : ℕ)
    (version : Version) (trs : List CommitTransactionRequest)
    (resolution : List ResolveTransactionBatchReply) :
    (committedOf sk krm numResolvers version trs resolution).length = trs.length := by
  unfold committedOf
  rw [length_determineCommittedLoop, resolverMapOf_length]

theorem resolverMapOf_getD (sk : SystemKeys) (krm : KeyResolverMap) (numResolvers : ℕ)
    (version : Version) (trs : List CommitTransactionRequest) (t : ℕ) (h : t < trs.length) :
    (resolverMapOf sk krm numResolvers version trs).getD t []
      = (addTransaction sk krm numResolvers version (trs.getD t defaultTr) t).resolversUsed := by
  unfold resolverMapOf
  have hlen : t < (buildResolution sk krm numResolvers version trs).length := by
    rw [length_buildResolution]
    exact h
  have hlen2 : t < ((buildResolution sk krm numResolvers version trs).map
      (fun a => a.resolversUsed)).length := by
    rw [List.length_map]
    exact hlen
  rw [getD_indep _ t []
      ((addTransaction sk krm numResolvers version defaultTr 0).resolversUsed) hlen2,
    getD_map_apply (fun a => a.resolversUsed) _ t
      (addTransaction sk krm numResolvers version defaultTr 0) hlen,
    buildResolution_getD sk krm numResolvers version trs t h]

theorem ixMapOf_getD (sk : SystemKeys) (krm : KeyResolverMap) (numResolvers : ℕ)
    (version : Version) (trs : List CommitTransactionRequest) (t : ℕ) (h : t < trs.length) :
    (ixMapOf sk krm numResolvers version trs).getD t []
      = (addTransaction sk krm numResolvers version (trs.getD t defaultTr) t).rCRIndexMap := by
  unfold ixMapOf
  have hlen : t < (buildResolution sk krm numResolvers version trs).length := by
    rw [length_buildResolution]
    exact h
  have hlen2 : t < ((buildResolution sk krm numResolvers version trs).map
      (fun a => a.rCRIndexMap)).length := by
    rw [List.length_map]
    exact hlen
  rw [getD_indep _ t []
      ((addTransaction sk krm numResolvers version defaultTr 0).rCRIndexMap) hlen2,
    getD_map_apply (fun a => a.rCRIndexMap) _ t
      (addTransaction sk krm numResolvers version defaultTr 0) hlen,
    buildResolution_getD sk krm numResolvers version trs t h]

theorem commitBatchReplies_noMustContain (sk : SystemKeys) (krm : KeyResolverMap)
    (numResolvers : ℕ) (version : Version) (locked : Bool)
    (trs : List CommitTransactionRequest) (resolution : List ResolveTransactionBatchReply) :
    commitBatchReplies sk krm numResolvers version false locked trs resolution
      = replyLoop version locked resolution
          (zipReplyItems trs (committedOf sk krm numResolvers version trs resolution)
            (resolverMapOf sk krm numResolvers version trs)
            (ixMapOf sk krm numResolvers version trs))
          (fun _ => 0) 0 := rfl

theorem replies_getD_noMustContain (sk : SystemKeys) (krm : KeyResolverMap)
    (numResolvers : ℕ) (version : Version) (locked : Bool)
    (trs : List CommitTransactionRequest) (resolution : List ResolveTransactionBatchReply)
    (t : ℕ) (ht : t < trs.length) :
    (commitBatchReplies sk krm numResolvers version false locked trs resolution).getD t
        CommitReply.notCommitted
      = replyOne version locked resolution
          { tr := trs.getD t defaultTr,
            commitStatus := (committedOf sk krm numResolvers version trs resolution).getD t 0,
            resolvers := (resolverMapOf sk krm numResolvers version trs).getD t [],
            ixm := (ixMapOf sk krm numResolvers version trs).getD t [] }
          (fun r => usesBefore (resolverMapOf sk krm numResolvers version trs) t r) t := by
  have hc := (committedOf_length sk krm numResolvers version trs resolution).symm
  have hm := (resolverMapOf_length sk krm numResolvers version trs).symm
  have hx := (ixMapOf_length sk krm numResolvers version trs).symm
  have hzlen : t < (zipReplyItems trs (committedOf sk krm numResolvers version trs resolution)
      (resolverMapOf sk krm numResolvers version trs)
      (ixMapOf sk krm numResolvers version trs)).length := by
    rw [length_zipReplyItems _ _ _ _ hc hm hx]
    exact ht
  rw [commitBatchReplies_noMustContain,
    replyLoop_getD version locked resolution _ _ 0 t hzlen,
    zipReplyItems_getD _ _ _ _ t hc hm hx ht,
    zipReplyItems_map_resolvers _ _ _ _ hc hm hx]
  have hfun : (fun r => (fun _ => 0) r
      + usesBefore (resolverMapOf sk krm numResolvers version trs) t r)
      = fun r => usesBefore (resolverMapOf sk krm numResolvers version trs) t r := by
    funext r
    exact Nat.zero_add _
  rw [hfun, Nat.zero_add]

theorem lockCompatible_iff (locked : Bool) (tr : CommitTransactionRequest) :
    lockCompatible locked tr = true ↔ (locked = true → tr.lockAware = true) := by
  cases locked <;> simp [lockCompatible]

theorem committedOf_getD_fold (sk : SystemKeys) (krm : KeyResolverMap) (numResolvers : ℕ)
    (version : Version) (trs : List CommitTransactionRequest)
    (resolution : List ResolveTransactionBatchReply) (t : ℕ) (ht : t < trs.length) :
    (committedOf sk krm numResolvers version trs resolution).getD t 0
      = ((resolverMapOf sk krm numResolvers version trs).getD t []).foldl
          (fun c r => min (verdictAt resolution r
            (usesBefore (resolverMapOf sk krm numResolvers version trs) t r)) c)
          TransactionCommitted := by
  have hlen : t < (resolverMapOf sk krm numResolvers version trs).length := by
    rw [resolverMapOf_length]
    exact ht
  have hnd : ((resolverMapOf sk krm numResolvers version trs).getD t []).Nodup := by
    rw [resolverMapOf_getD sk krm numResolvers version trs t ht]
    exact resolversUsed_nodup sk krm numResolvers version _ t
  unfold committedOf
  rw [determineCommittedLoop_getD resolution _ _ t hlen]
  have hfun : (fun r => (fun _ => 0) r
      + usesBefore (resolverMapOf sk krm numResolvers version trs) t r)
      = fun r => usesBefore (resolverMapOf sk krm numResolvers version trs) t r := by
    funext r
    exact Nat.zero_add _
  rw [hfun, verdictFold_fst resolution _ hnd]

theorem foldl_min_committed_iff (f : ℕ → ℕ) (rs : List ℕ)
    (h2 : ∀ r ∈ rs, f r ≤ TransactionCommitted) :
    ((rs.foldl (fun c r => min (f r) c) TransactionCommitted = TransactionCommitted)
      ↔ ∀ r ∈ rs, f r = TransactionCommitted) := by
  have h := foldl_min_eq_committed f rs TransactionCommitted h2 (le_refl _)
  show List.foldl (fun c r => min (f r) c) TransactionCommitted rs = 2
    ↔ ∀ r ∈ rs, f r = 2
  rw [h]
  simp [TransactionCommitted]

theorem mem_enumFrom_eq : ∀ (l : List α) (n : ℕ) (p : ℕ × α) (d : α),
    p ∈ List.enumFrom n l → n ≤ p.1 ∧ p.1 - n < l.length ∧ l.getD (p.1 - n) d = p.2 := by
  intro l
  induction l with
  | nil =>
    intro n p d hp
    cases hp
  | cons a l ih =>
    intro n p d hp
    rcases List.mem_cons.mp hp with hp | hp
    · subst hp
      refine ⟨le_refl n, by simp, ?_⟩
      simp
    · obtain ⟨h1, h2, h3⟩ := ih (n + 1) p d hp
      refine ⟨by omega, by simp; omega, ?_⟩
      have hsub : p.1 - n = (p.1 - (n + 1)) + 1 := by omega
      rw [hsub]
      exact h3

theorem mem_enum_eq (l : List α) (p : ℕ × α) (d : α) (hp : p ∈ l.enum) :
    p.1 < l.length ∧ l.getD p.1 d = p.2 := by
  obtain ⟨h1, h2, h3⟩ := mem_enumFrom_eq l 0 p d hp
  rw [Nat.sub_zero] at h2 h3
  exact ⟨h2, h3⟩

end CommitProxy

namespace CommitProxy

/-- Concrete system key constants for counterexamples and witnesses
(metadata subrange inside the system keyspace, the database-locked key, the
end of the non-metadata system keys). -/
def sk0 : SystemKeys :=
  { metadataBegin := [255, 255], metadataEnd := [255, 255, 255],
    databaseLockedKey := [255, 1], databaseLockedKeyEnd := [255, 1, 0],
    nonMetadataSystemKeysEnd := [255, 2] }

/-- A key-resolver map with a single resolver (index 0) owning the whole
keyspace since version 0. -/
def krm0 : KeyResolverMap := [(([], [255, 255, 255, 255]), [(0, 0)])]

/-- A transaction with one `SetVersionstampedValue` mutation and no conflict
ranges. -/
def vsvMut : Mutation :=
  { mtype := MutationType.SetVersionstampedValue, param1 := [1],
    param2 := [7, 7, 7, 7, 7, 7, 7, 7, 7, 7, 0, 0, 0, 0] }

def vsvTr : CommitTransactionRequest :=
  { transaction :=
      { read_snapshot := 0, mutations := [vsvMut], read_conflict_ranges := [],
        write_conflict_ranges := [], report_conflicting_keys := false },
    lockAware := true }

/-- C5 counterexample: a `SetVersionstampedValue` mutation is rewritten (the
transaction's mutation list changes) but no auto-generated write-conflict
range is added: the rewrite adds a conflict range only for
`SetVersionstampedKey`. -/
theorem c5_counterexample :
    (addTransaction sk0 krm0 1 100 vsvTr 0).trOut.write_conflict_ranges = [] ∧
    (addTransaction sk0 krm0 1 100 vsvTr 0).trOut.mutations ≠ vsvTr.transaction.mutations := by
  exact ⟨by decide, by decide⟩

/-- C5 (amended): in `addTransaction` every mutation is rewritten by
`rewriteMutation` — a `SetVersionstampedKey` has its key parameter, and a
`SetVersionstampedValue` its value parameter, rewritten with
`(commitVersion, indexInBatch)` — and the write-conflict ranges gain exactly
one auto-generated single-key range covering the resulting key for each
`SetVersionstampedKey` mutation (in mutation order); `SetVersionstampedValue`
rewrites add no conflict range. -/
theorem c5_versionstamp_rewrite (sk : SystemKeys) (krm : KeyResolverMap) (numResolvers : ℕ)
    (version : Version) (tr : CommitTransactionRequest) (i : ℕ) :
    (addTransaction sk krm numResolvers version tr i).trOut.mutations
      = tr.transaction.mutations.map (rewriteMutation version i) ∧
    (addTransaction sk krm numResolvers version tr i).trOut.write_conflict_ranges
      = tr.transaction.write_conflict_ranges
        ++ (tr.transaction.mutations.filter
              (fun m => decide (m.mtype = MutationType.SetVersionstampedKey))).map
            (fun m => singleKeyRange (transformVersionstamp m.param1 version i)) := by
  constructor
  · rw [addTransaction_trOut_mutations, mutationLoop_fst]
  · rw [addTransaction_trOut_wcrs, mutationLoop_wcrs]

/-- A transaction with one `SetVersionstampedKey` mutation and no submitted
conflict ranges. -/
def vskMut : Mutation :=
  { mtype := MutationType.SetVersionstampedKey,
    param1 := [9, 9, 9, 9, 9, 9, 9, 9, 9, 9, 0, 0, 0, 0], param2 := [] }

def vskTr : CommitTransactionRequest :=
  { transaction :=
      { read_snapshot := 0, mutations := [vskMut], read_conflict_ranges := [],
        write_conflict_ranges := [], report_conflicting_keys := false },
    lockAware := true }

/-- C10 counterexample: a transaction with no submitted read- or
write-conflict ranges and no metadata mutations is nevertheless sent to a
resolver when it carries a `SetVersionstampedKey` mutation, because the
rewrite auto-generates a write-conflict range. -/
theorem c10_counterexample :
    vskTr.transaction.read_conflict_ranges = [] ∧
    vskTr.transaction.write_conflict_ranges = [] ∧
    (∀ m ∈ vskTr.transaction.mutations, isMetadataMutation sk0 m = false) ∧
    (addTransaction sk0 krm0 1 100 vskTr 0).resolversUsed ≠ [] := by
  refine ⟨by decide, by decide, by decide, by decide⟩

/-- C10 (amended): a transaction with no read-conflict ranges, no
write-conflict ranges, no metadata mutations and no `SetVersionstampedKey`
mutations is sent to no resolver (its `transactionResolverMap` entry is
empty); with the `mustContainSystemMutations` key unset its commit status
defaults to committed, and when the database is not locked (or the
transaction is lock-aware) it is replied committed, no conflict detection
having been performed for it. -/
theorem c10_trivial_transaction (sk : SystemKeys) (krm : KeyResolverMap) (numResolvers : ℕ)
    (version : Version) (locked : Bool) (trs : List CommitTransactionRequest)
    (resolution : List ResolveTransactionBatchReply) (t : ℕ)
    (ht : t < trs.length)
    (h1 : (trs.getD t defaultTr).transaction.read_conflict_ranges = [])
    (h2 : (trs.getD t defaultTr).transaction.write_conflict_ranges = [])
    (h3 : ∀ m ∈ (trs.getD t defaultTr).transaction.mutations,
      isMetadataMutation sk (rewriteMutation version t m) = false)
    (h4 : ∀ m ∈ (trs.getD t defaultTr).transaction.mutations,
      m.mtype ≠ MutationType.SetVersionstampedKey)
    (hlock : locked = false ∨ (trs.getD t defaultTr).lockAware = true) :
    (resolverMapOf sk krm numResolvers version trs).getD t [] = [] ∧
    (committedOf sk krm numResolvers version trs resolution).getD t 0 = TransactionCommitted ∧
    (commitBatchReplies sk krm numResolvers version false locked trs resolution).getD t
        CommitReply.notCommitted = CommitReply.committedReply version t := by
  have hTXN : (addTransaction sk krm numResolvers version (trs.getD t defaultTr) t).isTXNState
      = false := by
    rw [addTransaction_isTXNState, mutationLoop_metas_nil sk version t _ h3]
    rfl
  have hrcrs : (addTransaction sk krm numResolvers version
      (trs.getD t defaultTr) t).trOut.read_conflict_ranges = [] := by
    rw [addTransaction_trOut_rcrs, h1, hTXN]
    rfl
  have hfil : (trs.getD t defaultTr).transaction.mutations.filter
      (fun m => decide (m.mtype = MutationType.SetVersionstampedKey)) = [] :=
    List.filter_eq_nil_iff.mpr (fun m hm hc => h4 m hm (of_decide_eq_true hc))
  have hwcrs : (addTransaction sk krm numResolvers version
      (trs.getD t defaultTr) t).trOut.write_conflict_ranges = [] := by
    rw [addTransaction_trOut_wcrs, h2, mutationLoop_wcrs, hfil]
    rfl
  have hreads : (addTransaction sk krm numResolvers version
      (trs.getD t defaultTr) t).routedReads = List.replicate numResolvers [] := by
    rw [addTransaction_routedReads, hrcrs]
    rfl
  have hwrites : (addTransaction sk krm numResolvers version
      (trs.getD t defaultTr) t).routedWrites = List.replicate numResolvers [] := by
    rw [addTransaction_routedWrites, hwcrs]
    rfl
  have hused : (addTransaction sk krm numResolvers version
      (trs.getD t defaultTr) t).resolversUsed = [] := by
    rw [addTransaction_resolversUsed]
    apply List.filter_eq_nil_iff.mpr
    intro r _ hc
    rw [hTXN, hreads, hwrites, getD_replicate_nil, getD_replicate_nil] at hc
    simp at hc
  have hmapt : (resolverMapOf sk krm numResolvers version trs).getD t [] = [] := by
    rw [resolverMapOf_getD sk krm numResolvers version trs t ht, hused]
  have hcom : (committedOf sk krm numResolvers version trs resolution).getD t 0
      = TransactionCommitted := by
    rw [committedOf_getD_fold sk krm numResolvers version trs resolution t ht, hmapt]
    rfl
  refine ⟨hmapt, hcom, ?_⟩
  rw [replies_getD_noMustContain sk krm numResolvers version locked trs resolution t ht]
  have hlockB : lockCompatible locked (trs.getD t defaultTr) = true := by
    apply (lockCompatible_iff locked _).mpr
    intro hl
    rcases hlock with h | h
    · rw [h] at hl
      cases hl
    · exact h
  unfold replyOne
  rw [if_pos ⟨hcom, hlockB⟩]

/-- A plain transaction used in the C10 witness. -/
def trivialMut : Mutation :=
  { mtype := MutationType.SetValue, param1 := [3], param2 := [4] }

def trivialTr : CommitTransactionRequest :=
  { transaction :=
      { read_snapshot := 0, mutations := [trivialMut], read_conflict_ranges := [],
        write_conflict_ranges := [], report_conflicting_keys := false },
    lockAware := false }

/-- C10 witness: the amended statement at a concrete one-transaction batch. -/
theorem c10_witness :
    (resolverMapOf sk0 krm0 1 100 [trivialTr]).getD 0 [] = [] ∧
    (committedOf sk0 krm0 1 100 [trivialTr] []).getD 0 0 = TransactionCommitted ∧
    (commitBatchReplies sk0 krm0 1 100 false false [trivialTr] []).getD 0
        CommitReply.notCommitted = CommitReply.committedReply 100 0 :=
  c10_trivial_transaction sk0 krm0 1 100 false [trivialTr] [] 0
    (by decide) (by decide) (by decide) (by decide) (by decide) (Or.inl rfl)

end CommitProxy

namespace CommitProxy

theorem getD_of_le : ∀ (l : List α) (i : ℕ) (d : α), l.length ≤ i → l.getD i d = d := by
  intro l
  induction l with
  | nil => intro i d _; rfl
  | cons a l ih =>
    intro i d h
    cases i with
    | zero => simp at h
    | succ i => exact ih i d (by simpa using h)

/-- Resolver verdicts drawn from a well-formed reply set never exceed the
committed value. -/
theorem verdictAt_le (resolution : List ResolveTransactionBatchReply)
    (hall : ∀ rep ∈ resolution, ∀ v ∈ rep.committed, v ≤ TransactionCommitted) :
    ∀ r i : ℕ, verdictAt resolution r i ≤ TransactionCommitted := by
  intro r i
  unfold verdictAt
  by_cases hr : r < resolution.length
  · have hrep : resolution.getD r emptyReply ∈ resolution := getD_mem _ _ _ hr
    by_cases hi : i < (resolution.getD r emptyReply).committed.length
    · exact hall _ hrep _ (getD_mem _ _ _ hi)
    · rw [getD_of_le _ _ _ (le_of_not_lt hi)]
      decide
  · rw [getD_of_le _ _ _ (le_of_not_lt hr)]
    show ([] : List ℕ).getD i TransactionConflict ≤ TransactionCommitted
    rw [getD_of_le]
    · decide
    · exact Nat.zero_le i

/-- The reply for one transaction is a committed reply exactly when its
combined commit status is committed and it is compatible with the lock
state. -/
theorem replyOne_committed_iff (commitVersion : Version) (locked : Bool)
    (resolution : List ResolveTransactionBatchReply) (item : ReplyItem)
    (next : ℕ → ℕ) (t : ℕ) :
    (replyOne commitVersion locked resolution item next t
        = CommitReply.committedReply commitVersion t)
      ↔ (item.commitStatus = TransactionCommitted ∧ lockCompatible locked item.tr = true) := by
  unfold replyOne
  by_cases hc : item.commitStatus = TransactionCommitted ∧ lockCompatible locked item.tr
  · rw [if_pos hc]
    exact ⟨fun _ => hc, fun _ => rfl⟩
  · rw [if_neg hc]
    constructor
    · intro h
      exfalso
      by_cases h2 : item.commitStatus = TransactionTooOld
      · rw [if_pos h2] at h
        exact CommitReply.noConfusion h
      · rw [if_neg h2] at h
        by_cases h3 : item.tr.transaction.report_conflicting_keys
        · rw [if_pos h3] at h
          exact CommitReply.noConfusion h
        · rw [if_neg h3] at h
          exact CommitReply.noConfusion h
    · intro h
      exact absurd h hc

/-- C1 (amended): with the `mustContainSystemMutations` key unset (and no
force-recovery in flight), a transaction's commit status is computed as the
minimum — most restrictive — of the verdicts of exactly the resolvers in its
`transactionResolverMap` entry, each verdict read at that resolver's running
transaction position; and the transaction is replied committed (with the
batch commit version and its batch index) iff every resolver to which it was
sent returned a committed verdict and, if the database was locked at commit
time, the transaction was lock-aware. -/
theorem c1_resolver_unanimity (sk : SystemKeys) (krm : KeyResolverMap) (numResolvers : ℕ)
    (version : Version) (locked : Bool) (trs : List CommitTransactionRequest)
    (resolution : List ResolveTransactionBatchReply) (t : ℕ)
    (ht : t < trs.length)
    (hv : ∀ r i : ℕ, verdictAt resolution r i ≤ TransactionCommitted) :
    ((committedOf sk krm numResolvers version trs resolution).getD t 0
       = ((resolverMapOf sk krm numResolvers version trs).getD t []).foldl
           (fun c r => min (verdictAt resolution r
             (usesBefore (resolverMapOf sk krm numResolvers version trs) t r)) c)
           TransactionCommitted) ∧
    (((commitBatchReplies sk krm numResolvers version false locked trs resolution).getD t
        CommitReply.notCommitted = CommitReply.committedReply version t) ↔
      ((∀ r ∈ (resolverMapOf sk krm numResolvers version trs).getD t [],
          verdictAt resolution r
            (usesBefore (resolverMapOf sk krm numResolvers version trs) t r)
            = TransactionCommitted) ∧
        (locked = true → (trs.getD t defaultTr).lockAware = true))) := by
  have part1 := committedOf_getD_fold sk krm numResolvers version trs resolution t ht
  refine ⟨part1, ?_⟩
  have hSiff : ((committedOf sk krm numResolvers version trs resolution).getD t 0
      = TransactionCommitted)
      ↔ (∀ r ∈ (resolverMapOf sk krm numResolvers version trs).getD t [],
          verdictAt resolution r
            (usesBefore (resolverMapOf sk krm numResolvers version trs) t r)
            = TransactionCommitted) := by
    rw [part1]
    exact foldl_min_committed_iff _ _ (fun r _ => hv r _)
  rw [replies_getD_noMustContain sk krm numResolvers version locked trs resolution t ht,
    replyOne_committed_iff]
  show ((committedOf sk krm numResolvers version trs resolution).getD t 0
      = TransactionCommitted ∧ lockCompatible locked (trs.getD t defaultTr) = true) ↔ _
  rw [hSiff, lockCompatible_iff]

/-- A plain single-resolver transaction used in the C1 counterexample. -/
def plainTr : CommitTransactionRequest :=
  { transaction :=
      { read_snapshot := 5, mutations := [trivialMut],
        read_conflict_ranges := [([1], [1, 0])], write_conflict_ranges := [],
        report_conflicting_keys := false },
    lockAware := false }

/-- A resolver reply set in which the single resolver voted committed. -/
def resolutionC1 : List ResolveTransactionBatchReply :=
  [{ committed := [TransactionCommitted], conflictingKeyRangeMap := [[]] }]

/-- C1 counterexample: with the `mustContainSystemMutations` key set, a
transaction whose every resolver returned committed, with the database not
locked, is nevertheless replied `not_committed` (it is demoted because no
mutation reaches the system keyspace), so the claimed iff fails and the
final status is not the minimum of the resolver verdicts. -/
theorem c1_counterexample :
    resolverMapOf sk0 krm0 1 100 [plainTr] = [[0]] ∧
    verdictAt resolutionC1 0 0 = TransactionCommitted ∧
    commitBatchReplies sk0 krm0 1 100 true false [plainTr] resolutionC1
      = [CommitReply.notCommitted] := by
  refine ⟨by decide, by decide, by decide⟩

/-- C1 witness: the amended statement applied at a concrete batch, deriving
the committed reply from resolver unanimity. -/
theorem c1_witness :
    (commitBatchReplies sk0 krm0 1 100 false false [plainTr] resolutionC1).getD 0
        CommitReply.notCommitted = CommitReply.committedReply 100 0 := by
  have hv := verdictAt_le resolutionC1 (by decide)
  have h := c1_resolver_unanimity sk0 krm0 1 100 false [plainTr] resolutionC1 0 (by decide) hv
  exact h.2.mpr ⟨by decide, by decide⟩

end CommitProxy

namespace CommitProxy

theorem routedReads_getD (sk : SystemKeys) (krm : KeyResolverMap) (numResolvers : ℕ)
    (version : Version) (tr : CommitTransactionRequest) (i : ℕ) (r : ℕ)
    (hr : r < numResolvers) :
    (addTransaction sk krm numResolvers version tr i).routedReads.getD r []
      = ((addTransaction sk krm numResolvers version tr i).trOut.read_conflict_ranges.enum).filter
          (fun p => decide (r ∈ readConflictResolvers krm p.2 tr.transaction.read_snapshot)) := by
  rw [addTransaction_routedReads,
    routeItems_getD _ _ _ r (fun x _ => nodup_readConflictResolvers krm x.2 _)
      (by rw [List.length_replicate]; exact hr),
    getD_replicate_nil]
  rfl

theorem rCRIndexMap_getD (sk : SystemKeys) (krm : KeyResolverMap) (numResolvers : ℕ)
    (version : Version) (tr : CommitTransactionRequest) (i : ℕ) (r : ℕ)
    (hr : r < numResolvers) :
    (addTransaction sk krm numResolvers version tr i).rCRIndexMap.getD r []
      = ((addTransaction sk krm numResolvers version tr i).routedReads.getD r []).map
          (fun p => p.1) := by
  have hlen : r < (addTransaction sk krm numResolvers version tr i).routedReads.length := by
    rw [addTransaction_routedReads, length_routeItems, List.length_replicate]
    exact hr
  rw [addTransaction_rCRIndexMap,
    getD_indep _ r [] (([] : List (ℕ × KeyRange)).map (fun p => p.1))
      (by rw [List.length_map]; exact hlen)]
  exact getD_map_apply (fun l => l.map (fun p => p.1)) _ r [] hlen

theorem rCRIndexMap_sorted (sk : SystemKeys) (krm : KeyResolverMap) (numResolvers : ℕ)
    (version : Version) (tr : CommitTransactionRequest) (i : ℕ) (r : ℕ)
    (hr : r < numResolvers) :
    ((addTransaction sk krm numResolvers version tr i).rCRIndexMap.getD r []).Sorted (· < ·) := by
  rw [rCRIndexMap_getD sk krm numResolvers version tr i r hr,
    routedReads_getD sk krm numResolvers version tr i r hr]
  have hsub : ((((addTransaction sk krm numResolvers version tr i).trOut.read_conflict_ranges.enum).filter
        (fun p => decide (r ∈ readConflictResolvers krm p.2 tr.transaction.read_snapshot))).map
          (fun p => p.1)).Sublist
      (((addTransaction sk krm numResolvers version tr i).trOut.read_conflict_ranges.enum).map
        (fun p => p.1)) :=
    (List.filter_sublist _).map _
  have hrange : ((addTransaction sk krm numResolvers version tr i).trOut.read_conflict_ranges.enum).map
      (fun p => p.1)
      = List.range (addTransaction sk krm numResolvers version tr i).trOut.read_conflict_ranges.length :=
    List.enum_map_fst _
  have hsorted : (((addTransaction sk krm numResolvers version tr i).trOut.read_conflict_ranges.enum).map
      (fun p => p.1)).Sorted (· < ·) := by
    rw [hrange]
    exact List.sorted_lt_range _
  exact hsorted.sublist hsub

theorem rCRIndexMap_nodup (sk : SystemKeys) (krm : KeyResolverMap) (numResolvers : ℕ)
    (version : Version) (tr : CommitTransactionRequest) (i : ℕ) (r : ℕ)
    (hr : r < numResolvers) :
    ((addTransaction sk krm numResolvers version tr i).rCRIndexMap.getD r []).Nodup :=
  (rCRIndexMap_sorted sk krm numResolvers version tr i r hr).nodup

/-- The conflicting-key-range index list the reply sends for transaction `t`
of a batch. -/
def conflictReplyIdxs (sk : SystemKeys) (krm : KeyResolverMap) (numResolvers : ℕ)
    (version : Version) (trs : List CommitTransactionRequest)
    (resolution : List ResolveTransactionBatchReply) (t : ℕ) : List ℕ :=
  conflictIndicesFor resolution ((ixMapOf sk krm numResolvers version trs).getD t [])
    ((resolverMapOf sk krm numResolvers version trs).getD t [])
    (fun r => usesBefore (resolverMapOf sk krm numResolvers version trs) t r)

/-- C4 (amended): for a conflicted transaction that requested
report-conflicting-keys, the reply carries the recorded remap of every
resolver-flagged range index: each returned index is the position, in the
transaction's read-conflict-range list as sent for resolution, of a range
that was routed to — and flagged by — one of the resolvers in the
transaction's `transactionResolverMap` entry; the indices contributed by any
single resolver are pairwise distinct (though two resolvers may contribute
the same index).  The hypotheses state the resolver contract: each flagged
index addresses a range that resolver received, without repetition. -/
theorem c4_conflict_index_roundtrip (sk : SystemKeys) (krm : KeyResolverMap)
    (numResolvers : ℕ) (version : Version) (locked : Bool)
    (trs : List CommitTransactionRequest) (resolution : List ResolveTransactionBatchReply)
    (t : ℕ) (ht : t < trs.length)
    (hnc : ¬ ((committedOf sk krm numResolvers version trs resolution).getD t 0
        = TransactionCommitted ∧ lockCompatible locked (trs.getD t defaultTr) = true))
    (hto : (committedOf sk krm numResolvers version trs resolution).getD t 0
        ≠ TransactionTooOld)
    (hrep : (trs.getD t defaultTr).transaction.report_conflicting_keys = true)
    (hk : ∀ r ∈ (resolverMapOf sk krm numResolvers version trs).getD t [],
      ∀ k ∈ flaggedAt resolution (resolverMapOf sk krm numResolvers version trs) t r,
        k < (((ixMapOf sk krm numResolvers version trs).getD t []).getD r []).length)
    (hknd : ∀ r ∈ (resolverMapOf sk krm numResolvers version trs).getD t [],
      (flaggedAt resolution (resolverMapOf sk krm numResolvers version trs) t r).Nodup) :
    ((commitBatchReplies sk krm numResolvers version false locked trs resolution).getD t
        CommitReply.notCommitted
      = CommitReply.conflictingKeys
          (conflictReplyIdxs sk krm numResolvers version trs resolution t)) ∧
    (∀ i ∈ conflictReplyIdxs sk krm numResolvers version trs resolution t,
      ∃ r ∈ (resolverMapOf sk krm numResolvers version trs).getD t [],
      ∃ k ∈ flaggedAt resolution (resolverMapOf sk krm numResolvers version trs) t r,
        (((ixMapOf sk krm numResolvers version trs).getD t []).getD r []).getD k 0 = i ∧
        i < (addTransaction sk krm numResolvers version
              (trs.getD t defaultTr) t).trOut.read_conflict_ranges.length ∧
        ((addTransaction sk krm numResolvers version
            (trs.getD t defaultTr) t).routedReads.getD r []).getD k (0, ([], []))
          = (i, (addTransaction sk krm numResolvers version
              (trs.getD t defaultTr) t).trOut.read_conflict_ranges.getD i ([], []))) ∧
    (∀ r ∈ (resolverMapOf sk krm numResolvers version trs).getD t [],
      ((flaggedAt resolution (resolverMapOf sk krm numResolvers version trs) t r).map
        (fun k => (((ixMapOf sk krm numResolvers version trs).getD t []).getD r []).getD k 0)).Nodup) := by
  have hmapA : (resolverMapOf sk krm numResolvers version trs).getD t []
      = (addTransaction sk krm numResolvers version (trs.getD t defaultTr) t).resolversUsed :=
    resolverMapOf_getD sk krm numResolvers version trs t ht
  have hixA : (ixMapOf sk krm numResolvers version trs).getD t []
      = (addTransaction sk krm numResolvers version (trs.getD t defaultTr) t).rCRIndexMap :=
    ixMapOf_getD sk krm numResolvers version trs t ht
  refine ⟨?_, ?_, ?_⟩
  · rw [replies_getD_noMustContain sk krm numResolvers version locked trs resolution t ht]
    unfold replyOne
    rw [if_neg hnc, if_neg hto, if_pos hrep]
    rfl
  · intro i hi
    unfold conflictReplyIdxs conflictIndicesFor at hi
    rw [List.mem_flatten] at hi
    obtain ⟨s, hs, his⟩ := hi
    rw [List.mem_map] at hs
    obtain ⟨r, hrmem, rfl⟩ := hs
    rw [List.mem_map] at his
    obtain ⟨k, hkmem, hki⟩ := his
    have hflag : k ∈ flaggedAt resolution (resolverMapOf sk krm numResolvers version trs) t r :=
      hkmem
    have hrlt : r < numResolvers := by
      rw [hmapA] at hrmem
      exact resolversUsed_lt sk krm numResolvers version _ t r hrmem
    have hkbound := hk r hrmem k hflag
    have hroutedEq := routedReads_getD sk krm numResolvers version (trs.getD t defaultTr) t r hrlt
    have hixm : ((ixMapOf sk krm numResolvers version trs).getD t []).getD r []
        = (((addTransaction sk krm numResolvers version
            (trs.getD t defaultTr) t).trOut.read_conflict_ranges.enum).filter
              (fun p => decide (r ∈ readConflictResolvers krm p.2
                (trs.getD t defaultTr).transaction.read_snapshot))).map (fun p => p.1) := by
      rw [hixA, rCRIndexMap_getD sk krm numResolvers version _ t r hrlt, hroutedEq]
    have hlenfil : k < (((addTransaction sk krm numResolvers version
        (trs.getD t defaultTr) t).trOut.read_conflict_ranges.enum).filter
          (fun p => decide (r ∈ readConflictResolvers krm p.2
            (trs.getD t defaultTr).transaction.read_snapshot))).length := by
      rw [hixm, List.length_map] at hkbound
      exact hkbound
    have hfst : (((ixMapOf sk krm numResolvers version trs).getD t []).getD r []).getD k 0
        = ((((addTransaction sk krm numResolvers version
            (trs.getD t defaultTr) t).trOut.read_conflict_ranges.enum).filter
              (fun p => decide (r ∈ readConflictResolvers krm p.2
                (trs.getD t defaultTr).transaction.read_snapshot))).getD k (0, ([], []))).1 := by
      rw [hixm]
      exact getD_map_apply (fun p => p.1) _ k (0, ([], [])) hlenfil
    have hqmem : ((((addTransaction sk krm numResolvers version
        (trs.getD t defaultTr) t).trOut.read_conflict_ranges.enum).filter
          (fun p => decide (r ∈ readConflictResolvers krm p.2
            (trs.getD t defaultTr).transaction.read_snapshot))).getD k (0, ([], [])))
        ∈ (((addTransaction sk krm numResolvers version
            (trs.getD t defaultTr) t).trOut.read_conflict_ranges.enum).filter
              (fun p => decide (r ∈ readConflictResolvers krm p.2
                (trs.getD t defaultTr).transaction.read_snapshot))) :=
      getD_mem _ _ _ hlenfil
    have hqenum := List.mem_of_mem_filter hqmem
    have hqe := mem_enum_eq _ _ (([], []) : KeyRange) hqenum
    have hiq : ((((addTransaction sk krm numResolvers version
        (trs.getD t defaultTr) t).trOut.read_conflict_ranges.enum).filter
          (fun p => decide (r ∈ readConflictResolvers krm p.2
            (trs.getD t defaultTr).transaction.read_snapshot))).getD k (0, ([], []))).1 = i := by
      rw [← hfst]
      exact hki
    refine ⟨r, hrmem, k, hflag, hki, ?_, ?_⟩
    · rw [← hiq]
      exact hqe.1
    · rw [hroutedEq, Prod.ext_iff]
      refine ⟨hiq, ?_⟩
      show ((((addTransaction sk krm numResolvers version
          (trs.getD t defaultTr) t).trOut.read_conflict_ranges.enum).filter
            (fun p => decide (r ∈ readConflictResolvers krm p.2
              (trs.getD t defaultTr).transaction.read_snapshot))).getD k (0, ([], []))).2
        = (addTransaction sk krm numResolvers version
            (trs.getD t defaultTr) t).trOut.read_conflict_ranges.getD i ([], [])
      rw [← hiq]
      exact hqe.2.symm
  · intro r hrmem
    have hrlt : r < numResolvers := by
      rw [hmapA] at hrmem
      exact resolversUsed_lt sk krm numResolvers version _ t r hrmem
    apply List.Nodup.map_on
    · intro k1 hk1 k2 hk2 heq
      have hnd : (((ixMapOf sk krm numResolvers version trs).getD t []).getD r []).Nodup := by
        rw [hixA]
        exact rCRIndexMap_nodup sk krm numResolvers version _ t r hrlt
      exact nodup_getD_inj _ hnd k1 k2 (hk r hrmem k1 hk1) (hk r hrmem k2 hk2) heq
    · exact hknd r hrmem

/-- A key-resolver map whose single entry has a two-resolver history, so a
read-conflict range read at an old snapshot is routed to both resolvers. -/
def krm2 : KeyResolverMap := [(([], [255, 255, 255, 255]), [(0, 0), (5, 1)])]

/-- A transaction (snapshot below the newer resolver's version) with one
read-conflict range and report-conflicting-keys requested. -/
def tr4 : CommitTransactionRequest :=
  { transaction :=
      { read_snapshot := 3, mutations := [], read_conflict_ranges := [([1], [2])],
        write_conflict_ranges := [], report_conflicting_keys := true },
    lockAware := false }

/-- Replies in which both resolvers flag the transaction's only range. -/
def resolution4 : List ResolveTransactionBatchReply :=
  [{ committed := [TransactionConflict], conflictingKeyRangeMap := [[0]] },
   { committed := [TransactionConflict], conflictingKeyRangeMap := [[0]] }]

/-- C4 counterexample: when a read-conflict range is routed to two resolvers
and both flag it, the reply emits the same original index twice — the
"no index is emitted twice" part of the claim fails. -/
theorem c4_counterexample :
    commitBatchReplies sk0 krm2 2 100 false false [tr4] resolution4
      = [CommitReply.conflictingKeys [0, 0]] ∧
    ¬ ([0, 0] : List ℕ).Nodup := by
  exact ⟨by decide, by decide⟩

/-- C4 witness: the amended statement at the concrete two-resolver batch. -/
theorem c4_witness :
    (commitBatchReplies sk0 krm2 2 100 false false [tr4] resolution4).getD 0
        CommitReply.notCommitted
      = CommitReply.conflictingKeys (conflictReplyIdxs sk0 krm2 2 100 [tr4] resolution4 0) := by
  have h := c4_conflict_index_roundtrip sk0 krm2 2 100 false [tr4] resolution4 0
    (by decide) (by decide) (by decide) (by decide) (by decide) (by decide)
  exact h.1

end CommitProxy
